import Mathlib

/-!
Shallow embedding of the `rlox` lexical scanner (`src/scanner.rs`, driver in
`src/main.rs`).  The Rust scanner walks a `Vec<char>` with cursors `start`,
`current` and a 1-based `line_no`, appending tokens to a vector and reporting
errors through a mutable `ErrorReporter`.  Here the whole scanner state is a
record, every method becomes a pure function on it, and the two partial
ingredients of the Rust code are made explicit:

* raw indexing `self.source[self.current]` (which would panic out of bounds)
  is modelled with `List.get?`, so `advance` and everything built on it
  returns `Option`;
* each `while` loop takes an explicit fuel argument and returns `none` when
  the fuel runs out; the top-level entry points pass `source.length + 1`,
  which is proved sufficient, so termination and in-bounds indexing are
  theorems rather than assumptions.

The `spans` field is ghost instrumentation: `add_token` records, next to each
pushed token, the half-open source span `[start, current)` it was built from.
It changes no observable behaviour and exists only so span/overlap invariants
can be stated.
-/

namespace Rlox

/-- Modelled from the spec: the closed token-kind enumeration of the
`token_type` module (the module itself is not among the provided sources;
§3 and the Glossary list the kinds: single/double-character punctuation and
operators, literal categories, the sixteen keywords, identifier, and
end-of-input). -/
inductive TokenType where
  | LeftParen
  | RightParen
  | LeftBrace
  | RightBrace
  | Comma
  | Dot
  | Minus
  | Plus
  | Semicolon
  | Star
  | Slash
  | Bang
  | BangEqual
  | Equal
  | EqualEqual
  | Less
  | LessEqual
  | Greater
  | GreaterEqual
  | Identifier
  | String
  | Number
  | And
  | Class
  | Else
  | False
  | For
  | Fun
  | If
  | Nil
  | Or
  | Print
  | Return
  | Super
  | This
  | True
  | Var
  | While
  | EOF
deriving DecidableEq

/-- Modelled from the spec: a token's optional literal payload — "a text value
for string literals; a 64-bit floating-point value for number literals" (§3).
The floating-point payload is modelled exactly as a rational number; every
numeral the scanner feeds to the parser is a plain decimal. -/
inductive Literal where
  | Str : List Char → Literal
  | Number : ℚ → Literal
deriving DecidableEq

/-- Modelled from the spec: the immutable token record of the `token_type`
module — kind, exact lexeme text, optional literal (§3, §4.1).  Source text is
kept as `List Char`, matching the scanner's `Vec<char>` view of the input. -/
structure Token where
  token_type : TokenType
  lexeme : List Char
  literal : Option Literal
deriving DecidableEq

/-- Character classification used by `Scanner::identifier` and the identifier
dispatch arm.  The Rust code calls the standard library's Unicode predicates
`char::is_alphabetic` and `char::is_numeric` (with
`is_alphanumeric = is_alphabetic || is_numeric`); the scanner is embedded
relative to an arbitrary pair of such predicates.  The two proof fields record
the one fact about the real predicates the code's loop guards rely on: the
NUL character (returned by `peek` as its end-of-input sentinel) is neither
alphabetic nor numeric. -/
structure CharPred where
  isAlphabetic : Char → Bool
  isNumeric : Char → Bool
  null_not_alpha : isAlphabetic (Char.ofNat 0) = false
  null_not_num : isNumeric (Char.ofNat 0) = false

/-- Instance of `CharPred` for concrete inputs: Rust's `char::is_alphabetic`
and `char::is_numeric` restricted to the Latin-1 range U+0000–U+00FF, on which
this table is exact (every concrete input in this development lies in that
range).  Alphabetic: ASCII letters, ª, µ, º, À–Ö, Ø–ö, ø–ÿ (excluding × and
÷); numeric: ASCII digits and ², ³, ¹, ¼, ½, ¾. -/
def latin1Alphabetic (c : Char) : Bool :=
  (('A' ≤ c ∧ c ≤ 'Z') ∨ ('a' ≤ c ∧ c ≤ 'z')
    ∨ c.toNat = 0xAA ∨ c.toNat = 0xB5 ∨ c.toNat = 0xBA
    ∨ (0xC0 ≤ c.toNat ∧ c.toNat ≤ 0xD6)
    ∨ (0xD8 ≤ c.toNat ∧ c.toNat ≤ 0xF6)
    ∨ (0xF8 ≤ c.toNat ∧ c.toNat ≤ 0xFF))

/-- Numeric half of the Latin-1 `CharPred` instance; see `latin1Alphabetic`. -/
def latin1Numeric (c : Char) : Bool :=
  (c.isDigit ∨ c.toNat = 0xB2 ∨ c.toNat = 0xB3 ∨ c.toNat = 0xB9
    ∨ c.toNat = 0xBC ∨ c.toNat = 0xBD ∨ c.toNat = 0xBE)

/-- The concrete character-classification instance used on concrete inputs. -/
def latin1CharPred : CharPred :=
  ⟨latin1Alphabetic, latin1Numeric, by decide, by decide⟩

/-- The scanner state (`struct Scanner`), with `errors` standing for the trace
of `error(self.error_reporter, line, message)` calls (each entry is the line
number and message of one report; the reporter's latched `had_error` flag is
`errors ≠ []`), and `spans` the ghost span trace kept by `add_token`.  The
keyword table is a constant (`keywords` below) rather than a field, since the
constructor always builds the same table. -/
structure Scanner where
  source : List Char
  tokens : List Token
  start : Nat
  current : Nat
  line_no : Nat
  errors : List (Nat × String)
  spans : List (Nat × Nat)
deriving DecidableEq

/-- The keyword table built by `Scanner::new`: the sixteen reserved words and
their dedicated token kinds. -/
def keywords : List (List Char × TokenType) :=
  [("and".toList, TokenType.And),
   ("class".toList, TokenType.Class),
   ("else".toList, TokenType.Else),
   ("false".toList, TokenType.False),
   ("for".toList, TokenType.For),
   ("fun".toList, TokenType.Fun),
   ("if".toList, TokenType.If),
   ("nil".toList, TokenType.Nil),
   ("or".toList, TokenType.Or),
   ("print".toList, TokenType.Print),
   ("return".toList, TokenType.Return),
   ("super".toList, TokenType.Super),
   ("this".toList, TokenType.This),
   ("true".toList, TokenType.True),
   ("var".toList, TokenType.Var),
   ("while".toList, TokenType.While)]

/-- Lookup in the keyword table (`self.keywords.get(text.as_str())`). -/
def keywordLookup (text : List Char) : Option TokenType :=
  keywords.lookup text

/-- `Scanner::new(source, reporter)`: cursors at 0, line 1, empty token list,
no errors reported yet. -/
def mkScanner (source : List Char) : Scanner :=
  ⟨source, [], 0, 0, 1, [], []⟩

/-- `Scanner::is_at_end`: `self.current >= self.source.len()`. -/
def is_at_end (s : Scanner) : Bool :=
  s.source.length ≤ s.current

/-- `Scanner::advance`: read `self.source[self.current]` and step the cursor.
The raw index panics out of bounds in Rust; that branch is `none` here. -/
def advance (s : Scanner) : Option (Char × Scanner) :=
  match s.source[s.current]? with
  | some c => some (c, { s with current := s.current + 1 })
  | none => none

/-- The slice `self.source[a..b]` collected to a string (used for lexemes and
literal text).  In every use `a ≤ b ≤ source.length` holds, where this agrees
with the Rust slice. -/
def extract (src : List Char) (a b : Nat) : List Char :=
  (src.drop a).take (b - a)

/-- `Scanner::add_token`: push `Token::new(token_type, source[start..current],
literal)`; the ghost `spans` field records the span alongside. -/
def add_token (s : Scanner) (token_type : TokenType) (lit : Option Literal) : Scanner :=
  { s with
      tokens := s.tokens ++ [⟨token_type, extract s.source s.start s.current, lit⟩],
      spans := s.spans ++ [(s.start, s.current)] }

/-- `Scanner::next_match`: conditional one-character consume.  The raw index
is guarded by the `is_at_end` check, so `getD` with an arbitrary default is
exact here. -/
def next_match (s : Scanner) (expected : Char) : Bool × Scanner :=
  if is_at_end s then (false, s)
  else if s.source.getD s.current (Char.ofNat 0) ≠ expected then (false, s)
  else (true, { s with current := s.current + 1 })

/-- `Scanner::peek`: one-character lookahead with NUL as end-of-input
sentinel. -/
def peek (s : Scanner) : Char :=
  if is_at_end s then Char.ofNat 0 else s.source.getD s.current (Char.ofNat 0)

/-- `Scanner::peek_next`: two-character lookahead with the same sentinel. -/
def peek_next (s : Scanner) : Char :=
  if s.source.length ≤ s.current + 1 then Char.ofNat 0
  else s.source.getD (s.current + 1) (Char.ofNat 0)

/-- `error(self.error_reporter, self.line_no, message)` (via `report` in
`main.rs`): append one diagnostic to the reporter trace. -/
def report_error (s : Scanner) (message : String) : Scanner :=
  { s with errors := s.errors ++ [(s.line_no, message)] }

/-- The latched `had_error` flag of the `ErrorReporter`. -/
def had_error (s : Scanner) : Bool :=
  ¬ s.errors.isEmpty

/-- Diagnostic message of the unexpected-character error. -/
def unexpectedCharacterMsg : String :=
  "Unexpected character."

/-- Diagnostic message of the unterminated-string error. -/
def unterminatedStringMsg : String :=
  "Unterminated string."

/-- Diagnostic message of the defensive numeric-parse error. -/
def invalidNumericMsg : String :=
  "Invalid numeric literal."

/-- The character value of `{` (written via `Char.ofNat` to keep brace
characters out of literals). -/
def leftBraceChar : Char := Char.ofNat 123

/-- The character value of `}`. -/
def rightBraceChar : Char := Char.ofNat 125

/-- Value of a digit string, most significant first (how `f64` parsing reads
the integer and fraction parts). -/
def digitsVal (cs : List Char) : Nat :=
  cs.foldl (fun acc c => 10 * acc + (c.toNat - 48)) 0

/-- Model of Rust's `value.parse::<f64>()` as used in `Scanner::number`,
restricted to the unsigned decimal numerals (digits with at most one interior
dot) the scanner produces, with exact rational semantics in place of IEEE
rounding: `i.f` denotes `(i * 10^|f| + f) / 10^|f|`.  Strings that are not
such a numeral are rejected (`Err`). -/
def parseF64 (cs : List Char) : Option ℚ :=
  let intPart := cs.takeWhile Char.isDigit
  let rest := cs.drop intPart.length
  match rest with
  | [] => if intPart.isEmpty then none else some (mkRat (digitsVal intPart) 1)
  | c :: frac =>
    if c = '.' ∧ frac.all Char.isDigit ∧ (¬ intPart.isEmpty ∨ ¬ frac.isEmpty) then
      some (mkRat (digitsVal intPart * 10 ^ frac.length + digitsVal frac) (10 ^ frac.length))
    else none

/-- The `while self.peek() != '"' && !self.is_at_end()` loop of
`Scanner::string`, with explicit fuel. -/
def string_loop (fuel : Nat) (s : Scanner) : Option Scanner :=
  match fuel with
  | 0 => none
  | fuel + 1 =>
    if peek s ≠ '"' ∧ ¬ is_at_end s then
      let s1 := if peek s = '\n' then { s with line_no := s.line_no + 1 } else s
      match advance s1 with
      | some (_, s2) => string_loop fuel s2
      | none => none
    else some s

/-- `Scanner::string`: consume up to the closing quote; unterminated strings
report an error and emit nothing, otherwise the closing quote is consumed and
a string token is pushed whose literal is the text strictly between the
quotes. -/
def string_fn (s : Scanner) : Option Scanner :=
  match string_loop (s.source.length + 1) s with
  | none => none
  | some s1 =>
    if is_at_end s1 then some (report_error s1 unterminatedStringMsg)
    else
      match advance s1 with
      | none => none
      | some (_, s2) =>
        some (add_token s2 TokenType.String
          (some (Literal.Str (extract s2.source (s2.start + 1) (s2.current - 1)))))

/-- The `while self.peek().is_digit(10)` loops of `Scanner::number`
(`is_digit(10)` is an ASCII-digit test), with explicit fuel. -/
def digits_loop (fuel : Nat) (s : Scanner) : Option Scanner :=
  match fuel with
  | 0 => none
  | fuel + 1 =>
    if (peek s).isDigit then
      match advance s with
      | some (_, s1) => digits_loop fuel s1
      | none => none
    else some s

/-- `Scanner::number`: maximal digit run, optional `.` plus second maximal
digit run (only when a digit follows the dot), then parse the consumed span;
a parse failure reports the defensive error and emits nothing. -/
def number (s : Scanner) : Option Scanner :=
  match digits_loop (s.source.length + 1) s with
  | none => none
  | some s1 =>
    let afterDot : Option Scanner :=
      if peek s1 = '.' ∧ (peek_next s1).isDigit then
        match advance s1 with
        | some (_, sa) => digits_loop (sa.source.length + 1) sa
        | none => none
      else some s1
    match afterDot with
    | none => none
    | some s2 =>
      match parseF64 (extract s2.source s2.start s2.current) with
      | some q => some (add_token s2 TokenType.Number (some (Literal.Number q)))
      | none => some (report_error s2 invalidNumericMsg)

/-- The `while self.peek().is_alphanumeric() || self.peek() == '_'` loop of
`Scanner::identifier`, with explicit fuel. -/
def ident_loop (cc : CharPred) (fuel : Nat) (s : Scanner) : Option Scanner :=
  match fuel with
  | 0 => none
  | fuel + 1 =>
    if cc.isAlphabetic (peek s) ∨ cc.isNumeric (peek s) ∨ peek s = '_' then
      match advance s with
      | some (_, s1) => ident_loop cc fuel s1
      | none => none
    else some s

/-- `Scanner::identifier`: maximal alphanumeric/underscore run, then keyword
lookup with `Identifier` as the fallback kind; identifiers and keywords carry
no literal. -/
def identifier (cc : CharPred) (s : Scanner) : Option Scanner :=
  match ident_loop cc (s.source.length + 1) s with
  | none => none
  | some s1 =>
    some (add_token s1 ((keywordLookup (extract s1.source s1.start s1.current)).getD
      TokenType.Identifier) none)

/-- The `while self.peek() != '\n' && !self.is_at_end()` comment-skipping loop
of the `/` arm of `Scanner::scan_token`, with explicit fuel. -/
def comment_loop (fuel : Nat) (s : Scanner) : Option Scanner :=
  match fuel with
  | 0 => none
  | fuel + 1 =>
    if peek s ≠ '\n' ∧ ¬ is_at_end s then
      match advance s with
      | some (_, s1) => comment_loop fuel s1
      | none => none
    else some s

/-- `Scanner::scan_token`: consume one character and dispatch on it, exactly
mirroring the Rust `match` (the `match` arms on distinct characters become an
if-chain; the wildcard arm is the digit / alphabetic / error trichotomy). -/
def scan_token (cc : CharPred) (s : Scanner) : Option Scanner :=
  match advance s with
  | none => none
  | some (c, s1) =>
    if c = '(' then some (add_token s1 TokenType.LeftParen none)
    else if c = ')' then some (add_token s1 TokenType.RightParen none)
    else if c = leftBraceChar then some (add_token s1 TokenType.LeftBrace none)
    else if c = rightBraceChar then some (add_token s1 TokenType.RightBrace none)
    else if c = ',' then some (add_token s1 TokenType.Comma none)
    else if c = '.' then some (add_token s1 TokenType.Dot none)
    else if c = '-' then some (add_token s1 TokenType.Minus none)
    else if c = '+' then some (add_token s1 TokenType.Plus none)
    else if c = ';' then some (add_token s1 TokenType.Semicolon none)
    else if c = '*' then some (add_token s1 TokenType.Star none)
    else if c = '!' then
      match next_match s1 '=' with
      | (next, s2) =>
        some (add_token s2 (if next then TokenType.BangEqual else TokenType.Bang) none)
    else if c = '=' then
      match next_match s1 '=' with
      | (next, s2) =>
        some (add_token s2 (if next then TokenType.EqualEqual else TokenType.Equal) none)
    else if c = '<' then
      match next_match s1 '=' with
      | (next, s2) =>
        some (add_token s2 (if next then TokenType.LessEqual else TokenType.Less) none)
    else if c = '>' then
      match next_match s1 '=' with
      | (next, s2) =>
        some (add_token s2 (if next then TokenType.GreaterEqual else TokenType.Greater) none)
    else if c = '/' then
      match next_match s1 '/' with
      | (true, s2) => comment_loop (s2.source.length + 1) s2
      | (false, s2) => some (add_token s2 TokenType.Slash none)
    else if c = '"' then string_fn s1
    else if c = ' ' ∨ c = '\r' ∨ c = '\t' then some s1
    else if c = '\n' then some { s1 with line_no := s1.line_no + 1 }
    else if c.isDigit then number s1
    else if cc.isAlphabetic c ∨ c = '_' then identifier cc s1
    else some (report_error s1 unexpectedCharacterMsg)

/-- The `while !self.is_at_end()` loop of `Scanner::scan_tokens`: set
`start := current`, scan one unit, repeat; with explicit fuel. -/
def scan_tokens_loop (cc : CharPred) (fuel : Nat) (s : Scanner) : Option Scanner :=
  match fuel with
  | 0 => none
  | fuel + 1 =>
    if ¬ is_at_end s then
      match scan_token cc { s with start := s.current } with
      | some s1 => scan_tokens_loop cc fuel s1
      | none => none
    else some s

/-- The end-of-input token pushed by `scan_tokens`:
`Token::new(TokenType::EOF, String::new(), None)`. -/
def eofToken : Token :=
  ⟨TokenType.EOF, [], none⟩

/-- `Scanner::scan_tokens`: run the scanning loop to exhaustion, then append
the end-of-input token; the Rust method returns `&self.tokens`, i.e. the
`tokens` field of the resulting state. -/
def scan_tokens (cc : CharPred) (s : Scanner) : Option Scanner :=
  match scan_tokens_loop cc (s.source.length + 1) s with
  | none => none
  | some s1 => some { s1 with tokens := s1.tokens ++ [eofToken] }

/-- Token list produced by a full scan of `src` from a fresh scanner (what
`run` in `main.rs` receives and prints). -/
def scanTokensOf (cc : CharPred) (src : List Char) : Option (List Token) :=
  (scan_tokens cc (mkScanner src)).map Scanner.tokens

/-- Error trace produced by a full scan of `src` from a fresh scanner. -/
def scanErrorsOf (cc : CharPred) (src : List Char) : Option (List (Nat × String)) :=
  (scan_tokens cc (mkScanner src)).map Scanner.errors

/-- Chained-span predicate: `SpanChain lo spans hi` says the spans are
pairwise disjoint half-open intervals `[a, b)` with `lo ≤ a < b`, listed left
to right, the end of each at or before the start of the next, and the last
end at most `hi` (with `lo ≤ hi` when there are none). -/
def SpanChain (lo : Nat) : List (Nat × Nat) → Nat → Prop
  | [], hi => lo ≤ hi
  | (a, b) :: rest, hi => lo ≤ a ∧ a < b ∧ SpanChain b rest hi

/-! Basic facts about the cursor primitives. -/

theorem is_at_end_eq_false_iff (s : Scanner) :
    is_at_end s = false ↔ s.current < s.source.length := by
  simp [is_at_end]

theorem is_at_end_eq_true_iff (s : Scanner) :
    is_at_end s = true ↔ s.source.length ≤ s.current := by
  simp [is_at_end]

theorem peek_of_lt (s : Scanner) (h : s.current < s.source.length) :
    peek s = s.source[s.current] := by
  unfold peek
  rw [if_neg, List.getD_eq_getElem _ _ h]
  simp only [is_at_end, decide_eq_true_eq]
  omega

theorem peek_of_at_end (s : Scanner) (h : s.source.length ≤ s.current) :
    peek s = Char.ofNat 0 := by
  unfold peek
  rw [if_pos]
  simpa [is_at_end]

theorem advance_of_lt (s : Scanner) (h : s.current < s.source.length) :
    advance s = some (s.source[s.current], { s with current := s.current + 1 }) := by
  unfold advance
  rw [List.getElem?_eq_getElem h]

theorem nul_not_digit : (Char.ofNat 0).isDigit = false := by decide

theorem drop_current_cons (s : Scanner) (h : s.current < s.source.length) :
    s.source.drop s.current = s.source[s.current] :: s.source.drop (s.current + 1) :=
  List.drop_eq_getElem_cons h

theorem drop_current_nil (s : Scanner) (h : s.source.length ≤ s.current) :
    s.source.drop s.current = [] :=
  List.drop_eq_nil_of_le h

/-! Characterization of the four scanning loops: each consumes exactly the
`takeWhile` prefix of the unread input selected by its guard predicate, and
succeeds whenever its fuel exceeds the length of that prefix. -/

theorem digits_loop_spec : ∀ (fuel : Nat) (s : Scanner),
    ((s.source.drop s.current).takeWhile Char.isDigit).length < fuel →
    digits_loop fuel s =
      some { s with
        current := s.current + ((s.source.drop s.current).takeWhile Char.isDigit).length } := by
  intro fuel
  induction fuel with
  | zero => exact fun s h => absurd h (Nat.not_lt_zero _)
  | succ fuel ih =>
    intro s h
    by_cases hlt : s.current < s.source.length
    · rw [drop_current_cons s hlt] at h ⊢
      by_cases hdig : (s.source[s.current]).isDigit = true
      · rw [List.takeWhile_cons_of_pos hdig] at h ⊢
        have step : digits_loop (fuel + 1) s = digits_loop fuel { s with current := s.current + 1 } := by
          rw [digits_loop, if_pos (by rw [peek_of_lt s hlt]; exact hdig), advance_of_lt s hlt]
        rw [step, ih { s with current := s.current + 1 } (by simpa using Nat.lt_of_succ_lt_succ h)]
        simp only [Option.some.injEq, Scanner.mk.injEq, List.length_cons, true_and, and_true]
        omega
      · rw [List.takeWhile_cons_of_neg (by simpa using hdig)]
        rw [digits_loop, if_neg (by rw [peek_of_lt s hlt]; simpa using hdig)]
        simp
    · rw [drop_current_nil s (by omega)]
      rw [digits_loop, if_neg (by rw [peek_of_at_end s (by omega)]; simp [nul_not_digit])]
      simp

/-- Continue-predicate of the identifier loop, as a single Bool test. -/
def identCont (cc : CharPred) (c : Char) : Bool :=
  cc.isAlphabetic c || cc.isNumeric c || c = '_'

theorem identCont_iff (cc : CharPred) (c : Char) :
    identCont cc c = true ↔
      (cc.isAlphabetic c = true ∨ cc.isNumeric c = true ∨ c = '_') := by
  simp [identCont, Bool.or_eq_true, or_assoc]

theorem identCont_nul (cc : CharPred) : identCont cc (Char.ofNat 0) = false := by
  simp [identCont, cc.null_not_alpha, cc.null_not_num]

/-- Continue-predicate of the string loop: not the closing quote. -/
def nonQuote (c : Char) : Bool :=
  c ≠ '"'

/-- Continue-predicate of the comment loop: not a newline. -/
def nonNewline (c : Char) : Bool :=
  c ≠ '\n'

theorem ident_loop_spec (cc : CharPred) : ∀ (fuel : Nat) (s : Scanner),
    ((s.source.drop s.current).takeWhile (identCont cc)).length < fuel →
    ident_loop cc fuel s =
      some { s with
        current := s.current + ((s.source.drop s.current).takeWhile (identCont cc)).length } := by
  intro fuel
  induction fuel with
  | zero => exact fun s h => absurd h (Nat.not_lt_zero _)
  | succ fuel ih =>
    intro s h
    by_cases hlt : s.current < s.source.length
    · rw [drop_current_cons s hlt] at h ⊢
      by_cases hcont : identCont cc (s.source[s.current]) = true
      · rw [List.takeWhile_cons_of_pos hcont] at h ⊢
        have step : ident_loop cc (fuel + 1) s
            = ident_loop cc fuel { s with current := s.current + 1 } := by
          rw [ident_loop,
            if_pos (by rw [peek_of_lt s hlt]; exact (identCont_iff cc _).mp hcont),
            advance_of_lt s hlt]
        rw [step, ih { s with current := s.current + 1 } (by simpa using Nat.lt_of_succ_lt_succ h)]
        simp only [Option.some.injEq, Scanner.mk.injEq, List.length_cons, true_and, and_true]
        omega
      · rw [List.takeWhile_cons_of_neg (by simpa using hcont)]
        rw [ident_loop,
          if_neg (by rw [peek_of_lt s hlt]; exact fun hc => hcont ((identCont_iff cc _).mpr hc))]
        simp
    · rw [drop_current_nil s (by omega)]
      rw [ident_loop,
        if_neg (by
          rw [peek_of_at_end s (by omega)]
          exact fun hc => by simpa [identCont_nul cc] using (identCont_iff cc _).mpr hc)]
      simp

theorem comment_loop_spec : ∀ (fuel : Nat) (s : Scanner),
    ((s.source.drop s.current).takeWhile nonNewline).length < fuel →
    comment_loop fuel s =
      some { s with
        current := s.current + ((s.source.drop s.current).takeWhile nonNewline).length } := by
  intro fuel
  induction fuel with
  | zero => exact fun s h => absurd h (Nat.not_lt_zero _)
  | succ fuel ih =>
    intro s h
    by_cases hlt : s.current < s.source.length
    · rw [drop_current_cons s hlt] at h ⊢
      by_cases hcont : nonNewline (s.source[s.current]) = true
      · rw [List.takeWhile_cons_of_pos hcont] at h ⊢
        have step : comment_loop (fuel + 1) s
            = comment_loop fuel { s with current := s.current + 1 } := by
          rw [comment_loop,
            if_pos (⟨by rw [peek_of_lt s hlt]; simpa [nonNewline] using hcont,
              by simp [is_at_end]; omega⟩),
            advance_of_lt s hlt]
        rw [step, ih { s with current := s.current + 1 } (by simpa using Nat.lt_of_succ_lt_succ h)]
        simp only [Option.some.injEq, Scanner.mk.injEq, List.length_cons, true_and, and_true]
        omega
      · rw [List.takeWhile_cons_of_neg (by simpa using hcont)]
        rw [comment_loop,
          if_neg (by
            rw [peek_of_lt s hlt]
            simp only [nonNewline, ne_eq, decide_not, Bool.not_eq_true', decide_eq_false_iff_not,
              Decidable.not_not] at hcont
            simp [hcont])]
        simp
    · rw [drop_current_nil s (by omega)]
      rw [comment_loop, if_neg (by simp [is_at_end]; omega)]
      simp

theorem string_loop_spec : ∀ (fuel : Nat) (s : Scanner),
    ((s.source.drop s.current).takeWhile nonQuote).length < fuel →
    string_loop fuel s =
      some { s with
        current := s.current + ((s.source.drop s.current).takeWhile nonQuote).length,
        line_no := s.line_no + ((s.source.drop s.current).takeWhile nonQuote).count '\n' } := by
  intro fuel
  induction fuel with
  | zero => exact fun s h => absurd h (Nat.not_lt_zero _)
  | succ fuel ih =>
    intro s h
    by_cases hlt : s.current < s.source.length
    · rw [drop_current_cons s hlt] at h ⊢
      by_cases hcont : nonQuote (s.source[s.current]) = true
      · rw [List.takeWhile_cons_of_pos hcont] at h ⊢
        by_cases hnl : s.source[s.current] = '\n'
        · have hadv : advance { s with line_no := s.line_no + 1 }
              = some (s.source[s.current],
                  { s with line_no := s.line_no + 1, current := s.current + 1 }) := by
            simpa using advance_of_lt { s with line_no := s.line_no + 1 } (by simpa using hlt)
          have step : string_loop (fuel + 1) s
              = string_loop fuel { s with current := s.current + 1, line_no := s.line_no + 1 } := by
            rw [string_loop,
              if_pos (⟨by rw [peek_of_lt s hlt]; simpa [nonQuote] using hcont,
                by simp [is_at_end]; omega⟩)]
            simp only [peek_of_lt s hlt, if_pos hnl, hadv]
          rw [step, ih { s with current := s.current + 1, line_no := s.line_no + 1 }
            (by simpa using Nat.lt_of_succ_lt_succ h)]
          simp only [Option.some.injEq, Scanner.mk.injEq, List.length_cons, true_and, and_true,
            hnl, List.count_cons_self]
          omega
        · have step : string_loop (fuel + 1) s
              = string_loop fuel { s with current := s.current + 1 } := by
            rw [string_loop,
              if_pos (⟨by rw [peek_of_lt s hlt]; simpa [nonQuote] using hcont,
                by simp [is_at_end]; omega⟩)]
            simp only [peek_of_lt s hlt, if_neg hnl, advance_of_lt s hlt]
          rw [step, ih { s with current := s.current + 1 }
            (by simpa using Nat.lt_of_succ_lt_succ h)]
          simp only [Option.some.injEq, Scanner.mk.injEq, List.length_cons, true_and, and_true]
          rw [List.count_cons_of_ne (Ne.symm hnl)]
          omega
      · rw [List.takeWhile_cons_of_neg (by simpa using hcont)]
        rw [string_loop,
          if_neg (by
            rw [peek_of_lt s hlt]
            simp only [nonQuote, ne_eq, decide_not, Bool.not_eq_true', decide_eq_false_iff_not,
              Decidable.not_not] at hcont
            simp [hcont])]
        simp
    · rw [drop_current_nil s (by omega)]
      rw [string_loop, if_neg (by simp [is_at_end]; omega)]
      simp

/-! Lookahead primitives as unguarded `getD` reads (the guards in `peek` and
`peek_next` coincide with `getD`'s out-of-range default). -/

theorem peek_eq_getD (s : Scanner) : peek s = s.source.getD s.current (Char.ofNat 0) := by
  unfold peek
  by_cases hend : is_at_end s = true
  · rw [if_pos hend, List.getD_eq_default _ _ ((is_at_end_eq_true_iff s).mp hend)]
  · rw [if_neg hend]

theorem peek_next_eq_getD (s : Scanner) :
    peek_next s = s.source.getD (s.current + 1) (Char.ofNat 0) := by
  unfold peek_next
  by_cases h : s.source.length ≤ s.current + 1
  · rw [if_pos h, List.getD_eq_default _ _ h]
  · rw [if_neg h]

theorem next_match_of_eq (s : Scanner) (e : Char) (h : s.source[s.current]? = some e) :
    next_match s e = (true, { s with current := s.current + 1 }) := by
  have hlt : s.current < s.source.length := (List.getElem?_eq_some.mp h).1
  have hv : s.source.getD s.current (Char.ofNat 0) = e := by
    rw [List.getD_eq_getElem _ _ hlt]
    exact (List.getElem?_eq_some.mp h).2
  unfold next_match
  rw [if_neg (by simp [is_at_end]; omega),
    if_neg (show ¬ s.source.getD s.current (Char.ofNat 0) ≠ e from fun hne => hne hv)]

theorem next_match_of_ne (s : Scanner) (e : Char) (h : s.source[s.current]? ≠ some e) :
    next_match s e = (false, s) := by
  unfold next_match
  by_cases hend : is_at_end s = true
  · rw [if_pos hend]
  · have hlt : s.current < s.source.length := by
      simp only [is_at_end, decide_eq_true_eq] at hend
      omega
    have hne : s.source.getD s.current (Char.ofNat 0) ≠ e := by
      rw [List.getD_eq_getElem _ _ hlt]
      intro he
      exact h (by rw [List.getElem?_eq_getElem hlt, he])
    rw [if_neg hend, if_pos hne]

theorem takeWhile_drop_length_le (src : List Char) (p : Char → Bool) (i : Nat) :
    ((src.drop i).takeWhile p).length ≤ src.length - i := by
  have h1 := (List.takeWhile_prefix p (l := src.drop i)).length_le
  simpa using h1

/-! Behaviour of `Scanner::string` in its two cases. -/

theorem takeWhile_nonQuote_eq_of_not_mem (src : List Char) (i : Nat)
    (hq : '"' ∉ src.drop i) :
    (src.drop i).takeWhile nonQuote = src.drop i := by
  rw [List.takeWhile_eq_self_iff]
  intro x hx
  simp only [nonQuote, ne_eq, decide_not, Bool.not_eq_true', decide_eq_false_iff_not]
  exact fun hxq => hq (hxq ▸ hx)

theorem takeWhile_nonQuote_lt_of_mem (src : List Char) (i : Nat)
    (hq : '"' ∈ src.drop i) :
    ((src.drop i).takeWhile nonQuote).length < (src.drop i).length := by
  have hle := (List.takeWhile_prefix nonQuote (l := src.drop i)).length_le
  rcases Nat.lt_or_ge ((src.drop i).takeWhile nonQuote).length (src.drop i).length with hlt | hge
  · exact hlt
  · exfalso
    have heq : (src.drop i).takeWhile nonQuote = src.drop i :=
      (List.takeWhile_prefix nonQuote).eq_of_length (by omega)
    have hall := List.takeWhile_eq_self_iff.mp heq
    have := hall _ hq
    simp [nonQuote] at this

theorem string_fn_unterminated (s : Scanner) (h : s.current ≤ s.source.length)
    (hq : '"' ∉ s.source.drop s.current) :
    string_fn s = some { s with
      current := s.source.length,
      line_no := s.line_no + (s.source.drop s.current).count '\n',
      errors := s.errors ++
        [(s.line_no + (s.source.drop s.current).count '\n', unterminatedStringMsg)] } := by
  have hbody := takeWhile_nonQuote_eq_of_not_mem s.source s.current hq
  have hlen : (s.source.drop s.current).length = s.source.length - s.current := by simp
  have hloop : string_loop (s.source.length + 1) s = some { s with
      current := s.current + (s.source.drop s.current).length,
      line_no := s.line_no + (s.source.drop s.current).count '\n' } := by
    have hw := string_loop_spec (s.source.length + 1) s (by rw [hbody]; omega)
    rw [hbody] at hw
    exact hw
  unfold string_fn
  rw [hloop]
  dsimp only
  rw [if_pos (by simp [is_at_end]; omega)]
  unfold report_error
  simp only [Option.some.injEq, Scanner.mk.injEq, true_and, and_true]
  omega

theorem string_fn_closed (s : Scanner) (hq : '"' ∈ s.source.drop s.current) :
    string_fn s = some { s with
      current := s.current + ((s.source.drop s.current).takeWhile nonQuote).length + 1,
      line_no := s.line_no + ((s.source.drop s.current).takeWhile nonQuote).count '\n',
      tokens := s.tokens ++ [⟨TokenType.String,
        extract s.source s.start
          (s.current + ((s.source.drop s.current).takeWhile nonQuote).length + 1),
        some (Literal.Str (extract s.source (s.start + 1)
          (s.current + ((s.source.drop s.current).takeWhile nonQuote).length)))⟩],
      spans := s.spans ++
        [(s.start, s.current + ((s.source.drop s.current).takeWhile nonQuote).length + 1)] } := by
  have hcLt : s.current < s.source.length := by
    by_contra hc
    rw [drop_current_nil s (by omega)] at hq
    exact absurd hq (List.not_mem_nil _)
  have hlen : (s.source.drop s.current).length = s.source.length - s.current := by simp
  have hblt : ((s.source.drop s.current).takeWhile nonQuote).length
      < s.source.length - s.current := by
    have := takeWhile_nonQuote_lt_of_mem s.source s.current hq
    omega
  unfold string_fn
  rw [string_loop_spec (s.source.length + 1) s (by omega)]
  dsimp only
  rw [if_neg (by simp [is_at_end]; omega)]
  rw [advance_of_lt _ (by simpa using (by omega :
    s.current + ((s.source.drop s.current).takeWhile nonQuote).length < s.source.length))]
  rfl

/-! Behaviour of `Scanner::number`. -/

/-- The maximal ASCII-digit run of the source starting at index `i`. -/
def digitsAfter (src : List Char) (i : Nat) : List Char :=
  (src.drop i).takeWhile Char.isDigit

/-- The fraction-part guard of `Scanner::number` at index `i`: the character
there is `.` and the one after it a digit (reads are `peek`-style, with NUL
standing for out of range). -/
def dotCondB (src : List Char) (i : Nat) : Bool :=
  src.getD i (Char.ofNat 0) = '.' ∧ (src.getD (i + 1) (Char.ofNat 0)).isDigit

/-- End state of `Scanner::number` once its consumption has reached `nc`:
parse the span `[start, nc)` and either push a number token or report the
defensive error. -/
def numberResult (s : Scanner) (nc : Nat) : Scanner :=
  match parseF64 (extract s.source s.start nc) with
  | some q =>
    { s with current := nc,
             tokens := s.tokens ++
               [⟨TokenType.Number, extract s.source s.start nc, some (Literal.Number q)⟩],
             spans := s.spans ++ [(s.start, nc)] }
  | none =>
    { s with current := nc, errors := s.errors ++ [(s.line_no, invalidNumericMsg)] }

theorem dotCondB_iff (s1 : Scanner) :
    dotCondB s1.source s1.current = true ↔
      (peek s1 = '.' ∧ (peek_next s1).isDigit = true) := by
  rw [peek_eq_getD, peek_next_eq_getD]
  simp [dotCondB]

theorem number_spec_nodot (s : Scanner) (h : s.current ≤ s.source.length)
    (hdot : dotCondB s.source (s.current + (digitsAfter s.source s.current).length) = false) :
    number s = some (numberResult s (s.current + (digitsAfter s.source s.current).length)) := by
  have hd1 : (digitsAfter s.source s.current).length ≤ s.source.length - s.current :=
    takeWhile_drop_length_le s.source Char.isDigit s.current
  have hloop : digits_loop (s.source.length + 1) s = some { s with
      current := s.current + (digitsAfter s.source s.current).length } :=
    digits_loop_spec (s.source.length + 1) s (by
      have hw := hd1
      unfold digitsAfter at hw
      omega)
  unfold number
  rw [hloop]
  dsimp only
  rw [if_neg (by
    intro hc
    have hb := (dotCondB_iff { s with
      current := s.current + (digitsAfter s.source s.current).length }).mpr (by exact hc)
    simp only at hb
    rw [hb] at hdot
    exact Bool.true_eq_false.mp hdot)]
  unfold numberResult
  cases hp : parseF64 (extract s.source s.start
      (s.current + (digitsAfter s.source s.current).length)) <;>
    simp [hp, report_error, add_token]

theorem dotCondB_lt_length (src : List Char) (i : Nat) (h : dotCondB src i = true) :
    i + 1 < src.length := by
  simp only [dotCondB, decide_eq_true_eq] at h
  by_contra hc
  rcases h with ⟨hdot, hdig⟩
  by_cases hi : i < src.length
  · have : src.getD (i + 1) (Char.ofNat 0) = Char.ofNat 0 :=
      List.getD_eq_default _ _ (by omega)
    rw [this] at hdig
    rw [nul_not_digit] at hdig
    exact Bool.false_ne_true hdig
  · have : src.getD i (Char.ofNat 0) = Char.ofNat 0 := List.getD_eq_default _ _ (by omega)
    rw [this] at hdot
    exact absurd hdot (by decide)

theorem number_spec_dot (s : Scanner) (h : s.current ≤ s.source.length)
    (hdot : dotCondB s.source (s.current + (digitsAfter s.source s.current).length) = true) :
    number s = some (numberResult s
      (s.current + (digitsAfter s.source s.current).length + 1 +
        (digitsAfter s.source
          (s.current + (digitsAfter s.source s.current).length + 1)).length)) := by
  have hd1 : (digitsAfter s.source s.current).length ≤ s.source.length - s.current :=
    takeWhile_drop_length_le s.source Char.isDigit s.current
  have hlt := dotCondB_lt_length s.source _ hdot
  have hd2 : (digitsAfter s.source
      (s.current + (digitsAfter s.source s.current).length + 1)).length
      ≤ s.source.length - (s.current + (digitsAfter s.source s.current).length + 1) :=
    takeWhile_drop_length_le s.source Char.isDigit _
  have hloop : digits_loop (s.source.length + 1) s = some { s with
      current := s.current + (digitsAfter s.source s.current).length } :=
    digits_loop_spec (s.source.length + 1) s (by
      have hw := hd1
      unfold digitsAfter at hw
      omega)
  have hloop2 : digits_loop (s.source.length + 1)
      { s with current := s.current + (digitsAfter s.source s.current).length + 1 }
      = some { s with current := s.current + (digitsAfter s.source s.current).length + 1 +
          (digitsAfter s.source
            (s.current + (digitsAfter s.source s.current).length + 1)).length } := by
    have hw := digits_loop_spec (s.source.length + 1)
      { s with current := s.current + (digitsAfter s.source s.current).length + 1 }
      (by
        have hw2 := hd2
        simp only [digitsAfter] at hw2 ⊢
        omega)
    simpa [digitsAfter] using hw
  unfold number
  rw [hloop]
  dsimp only
  rw [if_pos ((dotCondB_iff { s with
    current := s.current + (digitsAfter s.source s.current).length }).mp (by exact hdot))]
  rw [advance_of_lt _ (by simp; omega)]
  dsimp only
  rw [hloop2]
  unfold numberResult
  cases hp : parseF64 (extract s.source s.start
      (s.current + (digitsAfter s.source s.current).length + 1 +
        (digitsAfter s.source
          (s.current + (digitsAfter s.source s.current).length + 1)).length)) <;>
    simp [hp, report_error, add_token]

/-! Progress property of one `scan_token` step: it succeeds from any
non-exhausted state, keeps `source` and `start`, strictly advances `current`
without leaving the source, and appends either nothing or exactly one token
together with its ghost span `[start, current')`, whose recorded lexeme is the
corresponding source slice. -/

def StepOK (s s' : Scanner) : Prop :=
  s'.source = s.source ∧ s'.start = s.start ∧ s.current < s'.current ∧
  s'.current ≤ s.source.length ∧
  ((s'.tokens = s.tokens ∧ s'.spans = s.spans) ∨
    ∃ tk, s'.tokens = s.tokens ++ [tk] ∧
      s'.spans = s.spans ++ [(s.start, s'.current)] ∧
      tk.lexeme = extract s.source s.start s'.current)

theorem stepOK_add (s s1 : Scanner) (t : TokenType) (lit : Option Literal)
    (hsrc : s1.source = s.source) (hst : s1.start = s.start)
    (htok : s1.tokens = s.tokens) (hspan : s1.spans = s.spans)
    (hcur : s.current < s1.current) (hle : s1.current ≤ s.source.length) :
    StepOK s (add_token s1 t lit) := by
  refine ⟨hsrc, hst, hcur, hle,
    Or.inr ⟨⟨t, extract s1.source s1.start s1.current, lit⟩, ?_, ?_, ?_⟩⟩
  · simp [add_token, htok]
  · simp [add_token, hspan, hst]
  · simp [add_token, hsrc, hst]

theorem stepOK_noemit (s s1 : Scanner)
    (hsrc : s1.source = s.source) (hst : s1.start = s.start)
    (htok : s1.tokens = s.tokens) (hspan : s1.spans = s.spans)
    (hcur : s.current < s1.current) (hle : s1.current ≤ s.source.length) :
    StepOK s s1 :=
  ⟨hsrc, hst, hcur, hle, Or.inl ⟨htok, hspan⟩⟩

theorem stepOK_emit (s s' : Scanner) (tk : Token)
    (hsrc : s'.source = s.source) (hst : s'.start = s.start)
    (htok : s'.tokens = s.tokens ++ [tk])
    (hspan : s'.spans = s.spans ++ [(s.start, s'.current)])
    (hlex : tk.lexeme = extract s.source s.start s'.current)
    (hcur : s.current < s'.current) (hle : s'.current ≤ s.source.length) :
    StepOK s s' :=
  ⟨hsrc, hst, hcur, hle, Or.inr ⟨tk, htok, hspan, hlex⟩⟩

theorem stepOK_numberResult (s s1 : Scanner) (nc : Nat)
    (hsrc : s1.source = s.source) (hst : s1.start = s.start)
    (htok : s1.tokens = s.tokens) (hspan : s1.spans = s.spans)
    (hcur : s.current < nc) (hle : nc ≤ s.source.length) :
    StepOK s (numberResult s1 nc) := by
  unfold numberResult
  cases hp : parseF64 (extract s1.source s1.start nc) with
  | none =>
    exact ⟨by simp [hsrc], by simp [hst], by simpa using hcur, by simpa using hle,
      Or.inl ⟨by simpa using htok, by simpa using hspan⟩⟩
  | some q =>
    exact ⟨by simp [hsrc], by simp [hst], by simpa using hcur, by simpa using hle,
      Or.inr ⟨⟨TokenType.Number, extract s1.source s1.start nc, some (Literal.Number q)⟩,
        by simp [htok], by simp [hspan, hst], by simp [hsrc, hst]⟩⟩

theorem scan_token_spec (cc : CharPred) (s : Scanner) (h : s.current < s.source.length) :
    ∃ s', scan_token cc s = some s' ∧ StepOK s s' := by
  have hadv := advance_of_lt s h
  have haddOK : ∀ t lit, StepOK s (add_token { s with current := s.current + 1 } t lit) :=
    fun t lit => stepOK_add s _ t lit rfl rfl rfl rfl (Nat.lt_succ_self _) (by dsimp only; omega)
  unfold scan_token
  rw [hadv]
  dsimp only
  by_cases h1 : s.source[s.current] = '('
  · rw [if_pos h1]; exact ⟨_, rfl, haddOK _ _⟩
  rw [if_neg h1]
  by_cases h2 : s.source[s.current] = ')'
  · rw [if_pos h2]; exact ⟨_, rfl, haddOK _ _⟩
  rw [if_neg h2]
  by_cases h3 : s.source[s.current] = leftBraceChar
  · rw [if_pos h3]; exact ⟨_, rfl, haddOK _ _⟩
  rw [if_neg h3]
  by_cases h4 : s.source[s.current] = rightBraceChar
  · rw [if_pos h4]; exact ⟨_, rfl, haddOK _ _⟩
  rw [if_neg h4]
  by_cases h5 : s.source[s.current] = ','
  · rw [if_pos h5]; exact ⟨_, rfl, haddOK _ _⟩
  rw [if_neg h5]
  by_cases h6 : s.source[s.current] = '.'
  · rw [if_pos h6]; exact ⟨_, rfl, haddOK _ _⟩
  rw [if_neg h6]
  by_cases h7 : s.source[s.current] = '-'
  · rw [if_pos h7]; exact ⟨_, rfl, haddOK _ _⟩
  rw [if_neg h7]
  by_cases h8 : s.source[s.current] = '+'
  · rw [if_pos h8]; exact ⟨_, rfl, haddOK _ _⟩
  rw [if_neg h8]
  by_cases h9 : s.source[s.current] = ';'
  · rw [if_pos h9]; exact ⟨_, rfl, haddOK _ _⟩
  rw [if_neg h9]
  by_cases h10 : s.source[s.current] = '*'
  · rw [if_pos h10]; exact ⟨_, rfl, haddOK _ _⟩
  rw [if_neg h10]
  have htwo : ∀ t lit, s.current + 1 < s.source.length →
      StepOK s (add_token { s with current := s.current + 1 + 1 } t lit) :=
    fun t lit hlt2 =>
      stepOK_add s _ t lit rfl rfl rfl rfl (by dsimp only; omega) (by dsimp only; omega)
  by_cases h11 : s.source[s.current] = '!'
  · rw [if_pos h11]
    by_cases he : s.source[s.current + 1]? = some '='
    · rw [next_match_of_eq _ _ (by exact he)]
      dsimp only
      exact ⟨_, rfl, htwo _ _ (List.getElem?_eq_some.mp he).1⟩
    · rw [next_match_of_ne _ _ (by exact he)]
      dsimp only
      exact ⟨_, rfl, haddOK _ _⟩
  rw [if_neg h11]
  by_cases h12 : s.source[s.current] = '='
  · rw [if_pos h12]
    by_cases he : s.source[s.current + 1]? = some '='
    · rw [next_match_of_eq _ _ (by exact he)]
      dsimp only
      exact ⟨_, rfl, htwo _ _ (List.getElem?_eq_some.mp he).1⟩
    · rw [next_match_of_ne _ _ (by exact he)]
      dsimp only
      exact ⟨_, rfl, haddOK _ _⟩
  rw [if_neg h12]
  by_cases h13 : s.source[s.current] = '<'
  · rw [if_pos h13]
    by_cases he : s.source[s.current + 1]? = some '='
    · rw [next_match_of_eq _ _ (by exact he)]
      dsimp only
      exact ⟨_, rfl, htwo _ _ (List.getElem?_eq_some.mp he).1⟩
    · rw [next_match_of_ne _ _ (by exact he)]
      dsimp only
      exact ⟨_, rfl, haddOK _ _⟩
  rw [if_neg h13]
  by_cases h14 : s.source[s.current] = '>'
  · rw [if_pos h14]
    by_cases he : s.source[s.current + 1]? = some '='
    · rw [next_match_of_eq _ _ (by exact he)]
      dsimp only
      exact ⟨_, rfl, htwo _ _ (List.getElem?_eq_some.mp he).1⟩
    · rw [next_match_of_ne _ _ (by exact he)]
      dsimp only
      exact ⟨_, rfl, haddOK _ _⟩
  rw [if_neg h14]
  by_cases h15 : s.source[s.current] = '/'
  · rw [if_pos h15]
    by_cases he : s.source[s.current + 1]? = some '/'
    · rw [next_match_of_eq _ _ (by exact he)]
      dsimp only
      have hlt2 : s.current + 1 < s.source.length := (List.getElem?_eq_some.mp he).1
      have hb : ((s.source.drop (s.current + 1 + 1)).takeWhile nonNewline).length
          ≤ s.source.length - (s.current + 1 + 1) :=
        takeWhile_drop_length_le s.source nonNewline (s.current + 1 + 1)
      rw [comment_loop_spec (s.source.length + 1) { s with current := s.current + 1 + 1 }
        (by dsimp only; omega)]
      refine ⟨_, rfl, stepOK_noemit s _ rfl rfl rfl rfl ?_ ?_⟩ <;>
        first | omega | (dsimp only; omega)
    · rw [next_match_of_ne _ _ (by exact he)]
      dsimp only
      exact ⟨_, rfl, haddOK _ _⟩
  rw [if_neg h15]
  by_cases h16 : s.source[s.current] = '"'
  · rw [if_pos h16]
    by_cases hmem : '"' ∈ s.source.drop (s.current + 1)
    · have hblt : ((s.source.drop (s.current + 1)).takeWhile nonQuote).length
          < (s.source.drop (s.current + 1)).length :=
        takeWhile_nonQuote_lt_of_mem s.source (s.current + 1) hmem
      have hdl : (s.source.drop (s.current + 1)).length = s.source.length - (s.current + 1) := by
        simp
      rw [string_fn_closed { s with current := s.current + 1 } (by simpa using hmem)]
      refine ⟨_, rfl, stepOK_emit s _ _ rfl rfl rfl rfl rfl ?_ ?_⟩ <;>
        first | omega | (dsimp only; omega)
    · rw [string_fn_unterminated { s with current := s.current + 1 } (by dsimp only; omega)
        (by simpa using hmem)]
      refine ⟨_, rfl, stepOK_noemit s _ rfl rfl rfl rfl ?_ ?_⟩ <;>
        first | omega | (dsimp only; omega)
  rw [if_neg h16]
  by_cases h17 : s.source[s.current] = ' ' ∨ s.source[s.current] = '\r'
      ∨ s.source[s.current] = '\t'
  · rw [if_pos h17]
    exact ⟨_, rfl, stepOK_noemit s _ rfl rfl rfl rfl (Nat.lt_succ_self _) (by dsimp only; omega)⟩
  rw [if_neg h17]
  by_cases h18 : s.source[s.current] = '\n'
  · rw [if_pos h18]
    exact ⟨_, rfl, stepOK_noemit s _ rfl rfl rfl rfl (by dsimp only; omega)
      (by dsimp only; omega)⟩
  rw [if_neg h18]
  by_cases h19 : (s.source[s.current]).isDigit = true
  · rw [if_pos h19]
    have hb1 : (digitsAfter s.source (s.current + 1)).length
        ≤ s.source.length - (s.current + 1) :=
      takeWhile_drop_length_le s.source Char.isDigit (s.current + 1)
    by_cases hdc : dotCondB s.source
        (s.current + 1 + (digitsAfter s.source (s.current + 1)).length) = true
    · have hlt2 := dotCondB_lt_length s.source _ hdc
      have hb2 : (digitsAfter s.source
          (s.current + 1 + (digitsAfter s.source (s.current + 1)).length + 1)).length
          ≤ s.source.length -
            (s.current + 1 + (digitsAfter s.source (s.current + 1)).length + 1) :=
        takeWhile_drop_length_le s.source Char.isDigit _
      rw [number_spec_dot { s with current := s.current + 1 } (by dsimp only; omega)
        (by exact hdc)]
      refine ⟨_, rfl, stepOK_numberResult s _ _ rfl rfl rfl rfl ?_ ?_⟩ <;>
        first | omega | (dsimp only; omega)
    · rw [number_spec_nodot { s with current := s.current + 1 } (by dsimp only; omega)
        (by exact Bool.not_eq_true _ ▸ hdc)]
      refine ⟨_, rfl, stepOK_numberResult s _ _ rfl rfl rfl rfl ?_ ?_⟩ <;>
        first | omega | (dsimp only; omega)
  rw [if_neg h19]
  by_cases h20 : cc.isAlphabetic s.source[s.current] = true ∨ s.source[s.current] = '_'
  · rw [if_pos h20]
    have hb : ((s.source.drop (s.current + 1)).takeWhile (identCont cc)).length
        ≤ s.source.length - (s.current + 1) :=
      takeWhile_drop_length_le s.source (identCont cc) (s.current + 1)
    unfold identifier
    rw [ident_loop_spec cc (s.source.length + 1) { s with current := s.current + 1 }
      (by dsimp only; omega)]
    dsimp only
    refine ⟨_, rfl, stepOK_add s _ _ _ rfl rfl rfl rfl ?_ ?_⟩ <;>
      first | omega | (dsimp only; omega)
  rw [if_neg h20]
  exact ⟨_, rfl, stepOK_noemit s _ rfl rfl rfl rfl (Nat.lt_succ_self _)
    (show s.current + 1 ≤ s.source.length by omega)⟩

/-! The scanning loop: runs to exhaustion, appending a chained list of
token/span pairs. -/

theorem spanChain_mono (lo lo' hi : Nat) (l : List (Nat × Nat))
    (h : SpanChain lo' l hi) (hle : lo ≤ lo') : SpanChain lo l hi := by
  cases l with
  | nil =>
    simp only [SpanChain] at h ⊢
    omega
  | cons hd tl =>
    cases hd with
    | mk a b =>
      simp only [SpanChain] at h ⊢
      exact ⟨by omega, h.2.1, h.2.2⟩

theorem scan_tokens_loop_inv (cc : CharPred) : ∀ (fuel : Nat) (s : Scanner),
    s.source.length - s.current < fuel → s.current ≤ s.source.length →
    ∃ s', scan_tokens_loop cc fuel s = some s' ∧
      s'.source = s.source ∧
      s.source.length ≤ s'.current ∧ s'.current ≤ s.source.length ∧
      ∃ toks spans, s'.tokens = s.tokens ++ toks ∧ s'.spans = s.spans ++ spans ∧
        SpanChain s.current spans s'.current ∧
        List.Forall₂ (fun (tk : Token) (sp : Nat × Nat) =>
          tk.lexeme = extract s.source sp.1 sp.2) toks spans := by
  intro fuel
  induction fuel with
  | zero => exact fun s hf _ => absurd hf (Nat.not_lt_zero _)
  | succ fuel ih =>
    intro s hf hcur
    by_cases hend : is_at_end s = true
    · refine ⟨s, ?_, rfl, (is_at_end_eq_true_iff s).mp hend, hcur,
        [], [], by simp, by simp, ?_, List.Forall₂.nil⟩
      · rw [scan_tokens_loop, if_neg (by simp [hend])]
      · simp only [SpanChain]
        exact le_refl _
    · have hlt : s.current < s.source.length := by
        simp only [is_at_end, decide_eq_true_eq] at hend
        omega
      obtain ⟨s1, hst, hok⟩ := scan_token_spec cc { s with start := s.current }
        (by exact hlt)
      obtain ⟨hsrc1, hstart1, hcur1, hle1, hemit⟩ := hok
      have hsrc1' : s1.source = s.source := hsrc1
      have hstep : scan_tokens_loop cc (fuel + 1) s = scan_tokens_loop cc fuel s1 := by
        rw [scan_tokens_loop, if_pos (by simp [hend]), hst]
      obtain ⟨s2, hloop, hsrc2, hge2, hle2, toks2, spans2, htoks2, hspans2, hchain2, hfa2⟩ :=
        ih s1 (by rw [hsrc1']; dsimp only at hcur1 hle1; omega)
          (by rw [hsrc1']; dsimp only at hle1; exact hle1)
      dsimp only at hcur1 hle1 hemit
      refine ⟨s2, by rw [hstep]; exact hloop, by rw [hsrc2, hsrc1'], ?_, ?_, ?_⟩
      · rw [hsrc1'] at hge2
        omega
      · rw [hsrc1'] at hle2
        omega
      · rcases hemit with ⟨htk, hsp⟩ | ⟨tk, htk, hsp, hlex⟩
        · refine ⟨toks2, spans2, by rw [htoks2, htk], by rw [hspans2, hsp], ?_, ?_⟩
          · exact spanChain_mono s.current s1.current s2.current spans2 hchain2 (by omega)
          · have : s1.source = s.source := hsrc1'
            rw [this] at hfa2
            exact hfa2
        · refine ⟨tk :: toks2, (s.current, s1.current) :: spans2, ?_, ?_, ?_, ?_⟩
          · rw [htoks2, htk]
            simp
          · rw [hspans2, hsp]
            simp
          · simp only [SpanChain]
            exact ⟨le_refl _, hcur1, hchain2⟩
          · refine List.Forall₂.cons ?_ (by rw [hsrc1'] at hfa2; exact hfa2)
            exact hlex

/-- Full-scan master lemma: from a fresh scanner the scan succeeds, consumes
the whole source, and returns a body of tokens in one-to-one correspondence
with a chained list of ghost spans, followed by the end-of-input token. -/
theorem scan_tokens_master (cc : CharPred) (src : List Char) :
    ∃ s', scan_tokens cc (mkScanner src) = some s' ∧
      s'.source = src ∧ s'.current = src.length ∧
      ∃ body, s'.tokens = body ++ [eofToken] ∧
        body.length = s'.spans.length ∧
        List.Forall₂ (fun (tk : Token) (sp : Nat × Nat) =>
          tk.lexeme = extract src sp.1 sp.2) body s'.spans ∧
        SpanChain 0 s'.spans src.length := by
  obtain ⟨s1, hloop, hsrc, hge, hle, toks, spans, htoks, hspans, hchain, hfa⟩ :=
    scan_tokens_loop_inv cc (src.length + 1) (mkScanner src)
      (show src.length - 0 < src.length + 1 by omega)
      (show (0 : Nat) ≤ src.length by omega)
  simp only [mkScanner] at hsrc hge hle htoks hspans hchain hfa
  simp only [List.nil_append] at htoks hspans
  have hscan : scan_tokens cc (mkScanner src)
      = some { s1 with tokens := s1.tokens ++ [eofToken] } := by
    unfold scan_tokens
    rw [show (mkScanner src).source = src from rfl]
    simp only [hloop]
  refine ⟨_, hscan, ?_, ?_, toks, ?_, ?_, ?_, ?_⟩
  · exact hsrc
  · show s1.current = src.length
    omega
  · show s1.tokens ++ [eofToken] = toks ++ [eofToken]
    rw [htoks]
  · show toks.length = s1.spans.length
    rw [hspans, List.Forall₂.length_eq hfa]
  · show List.Forall₂ _ toks s1.spans
    rw [hspans]
    exact hfa
  · show SpanChain 0 s1.spans src.length
    have hc : s1.current = src.length := by omega
    rw [hspans, ← hc]
    exact hchain

/-- Claim C1: for every input string (under any character classification),
`scan_tokens` from a fresh scanner terminates successfully, and the last
element of the returned token sequence is the end-of-input token, whose kind
is `EOF`, whose lexeme is empty, and which carries no literal payload.  This
holds for arbitrary inputs, including ones where every character triggers an
error. -/
theorem scan_tokens_terminates_with_eof (cc : CharPred) (src : List Char) :
    ∃ s', scan_tokens cc (mkScanner src) = some s' ∧
      s'.tokens ≠ [] ∧
      s'.tokens.getLast? = some eofToken ∧
      eofToken.token_type = TokenType.EOF ∧ eofToken.lexeme = [] ∧
      eofToken.literal = none := by
  obtain ⟨s', hscan, hsrc, hcur, body, htoks, hrest⟩ := scan_tokens_master cc src
  exact ⟨s', hscan, by simp [htoks], by simp [htoks], rfl, rfl, rfl⟩

/-- Claim C9: for every input string (under any character classification), the
scan never takes the out-of-bounds branch of an indexing read and never runs
out of fuel: `scan_tokens` from a fresh scanner always returns `some`. -/
theorem scan_tokens_never_fails (cc : CharPred) (src : List Char) :
    (scan_tokens cc (mkScanner src)).isSome = true := by
  obtain ⟨s', hscan, hrest⟩ := scan_tokens_master cc src
  rw [hscan]
  rfl

/-- Claim C7: for every input, the scanned sequence is a body of tokens
followed by the end-of-input token; each body token corresponds one-to-one to
a recorded source span, its lexeme being exactly that contiguous slice of the
source, and the spans form a chain of non-empty, pairwise non-overlapping
intervals with strictly increasing starts, all inside the source. -/
theorem scan_tokens_spans_chain (cc : CharPred) (src : List Char) :
    ∃ s' body, scan_tokens cc (mkScanner src) = some s' ∧
      s'.tokens = body ++ [eofToken] ∧
      body.length = s'.spans.length ∧
      List.Forall₂ (fun (tk : Token) (sp : Nat × Nat) =>
        tk.lexeme = extract src sp.1 sp.2) body s'.spans ∧
      SpanChain 0 s'.spans src.length := by
  obtain ⟨s', hscan, hsrc, hcur, body, htoks, hlen, hfa, hchain⟩ := scan_tokens_master cc src
  exact ⟨s', body, hscan, htoks, hlen, hfa, hchain⟩

/-- Claim C2, counterexample to the claim as stated: on the empty input the
first call returns the one-element sequence `[EOF]`, but a second call on the
exhausted scanner returns `[EOF, EOF]` — it appends another end-of-input token
rather than returning the same accumulated sequence. -/
theorem scan_tokens_second_call_counterexample :
    (scan_tokens latin1CharPred (mkScanner [])).map Scanner.tokens = some [eofToken] ∧
    ((scan_tokens latin1CharPred (mkScanner [])).bind
        (fun s1 => scan_tokens latin1CharPred s1)).map Scanner.tokens
      = some [eofToken, eofToken] ∧
    (some [eofToken, eofToken] : Option (List Token)) ≠ some [eofToken] := by
  decide

/-- Claim C2 (amended): calling `scan_tokens` again after a full scan is a
no-op on the scanning loop — it re-reads no input, reports no error, and
leaves the line counter unchanged — but it unconditionally appends one more
end-of-input token, so the second call returns the first call's accumulated
sequence with one extra `EOF` token at the end. -/
theorem scan_tokens_second_call_appends_eof (cc : CharPred) (src : List Char)
    (s1 : Scanner) (h : scan_tokens cc (mkScanner src) = some s1) :
    (scan_tokens cc s1).map Scanner.tokens = some (s1.tokens ++ [eofToken]) ∧
    (scan_tokens cc s1).map Scanner.errors = some s1.errors ∧
    (scan_tokens cc s1).map Scanner.line_no = some s1.line_no := by
  obtain ⟨s', hscan, hsrc, hcur, hrest⟩ := scan_tokens_master cc src
  rw [h] at hscan
  have hs : s1 = s' := by
    cases hscan
    rfl
  subst hs
  have hend : is_at_end s1 = true := by
    rw [is_at_end_eq_true_iff, hsrc, hcur]
  have hrun : scan_tokens cc s1 = some { s1 with tokens := s1.tokens ++ [eofToken] } := by
    unfold scan_tokens
    rw [scan_tokens_loop, if_neg (by simp [hend])]
  rw [hrun]
  exact ⟨rfl, rfl, rfl⟩

/-- Claim C2 witness: the amended theorem applied to the empty input. -/
theorem scan_tokens_second_call_appends_eof_witness :
    (scan_tokens latin1CharPred (⟨[], [eofToken], 0, 0, 1, [], []⟩ : Scanner)).map Scanner.tokens
      = some ((⟨[], [eofToken], 0, 0, 1, [], []⟩ : Scanner).tokens ++ [eofToken]) ∧
    (scan_tokens latin1CharPred (⟨[], [eofToken], 0, 0, 1, [], []⟩ : Scanner)).map Scanner.errors
      = some (⟨[], [eofToken], 0, 0, 1, [], []⟩ : Scanner).errors ∧
    (scan_tokens latin1CharPred (⟨[], [eofToken], 0, 0, 1, [], []⟩ : Scanner)).map Scanner.line_no
      = some (⟨[], [eofToken], 0, 0, 1, [], []⟩ : Scanner).line_no :=
  scan_tokens_second_call_appends_eof latin1CharPred []
    (⟨[], [eofToken], 0, 0, 1, [], []⟩ : Scanner) (by decide)

/-- Claim C4: a string lexeme begun by a quote (the scanner state right after
consuming the opening quote, so `start + 1 = current`).  If no closing quote
remains, exactly one "Unterminated string." error is reported, at the line
where scanning stopped after counting every embedded newline, and no token is
emitted; otherwise exactly one String token is emitted whose literal value is
exactly the text strictly between the two quotes. -/
theorem string_literal_spec (s : Scanner) (h : s.current ≤ s.source.length)
    (hst : s.start + 1 = s.current) :
    (('"' ∉ s.source.drop s.current) →
      string_fn s = some { s with
        current := s.source.length,
        line_no := s.line_no + (s.source.drop s.current).count '\n',
        errors := s.errors ++
          [(s.line_no + (s.source.drop s.current).count '\n', unterminatedStringMsg)] }) ∧
    (('"' ∈ s.source.drop s.current) →
      string_fn s = some { s with
        current := s.current + ((s.source.drop s.current).takeWhile nonQuote).length + 1,
        line_no := s.line_no + ((s.source.drop s.current).takeWhile nonQuote).count '\n',
        tokens := s.tokens ++ [⟨TokenType.String,
          extract s.source s.start
            (s.current + ((s.source.drop s.current).takeWhile nonQuote).length + 1),
          some (Literal.Str ((s.source.drop s.current).takeWhile nonQuote))⟩],
        spans := s.spans ++
          [(s.start,
            s.current + ((s.source.drop s.current).takeWhile nonQuote).length + 1)] }) := by
  constructor
  · intro hq
    exact string_fn_unterminated s h hq
  · intro hq
    have hlit : extract s.source (s.start + 1)
        (s.current + ((s.source.drop s.current).takeWhile nonQuote).length)
        = (s.source.drop s.current).takeWhile nonQuote := by
      rw [hst]
      unfold extract
      rw [Nat.add_sub_cancel_left]
      exact (List.prefix_iff_eq_take.mp (List.takeWhile_prefix nonQuote)).symm
    rw [string_fn_closed s hq, hlit]

/-- Claim C4 witness: the theorem applied to the post-quote states of the
inputs `"hi` (unterminated) and `"h"` (closed). -/
theorem string_literal_spec_witness :
    string_fn (⟨['"', 'h', 'i'], [], 0, 1, 1, [], []⟩ : Scanner)
      = some ⟨['"', 'h', 'i'], [], 0, 3, 1, [(1, unterminatedStringMsg)], []⟩ ∧
    string_fn (⟨['"', 'h', '"'], [], 0, 1, 1, [], []⟩ : Scanner)
      = some ⟨['"', 'h', '"'],
          [⟨TokenType.String, ['"', 'h', '"'], some (Literal.Str ['h'])⟩],
          0, 3, 1, [], [(0, 3)]⟩ := by
  constructor
  · exact (string_literal_spec ⟨['"', 'h', 'i'], [], 0, 1, 1, [], []⟩
      (by decide) (by decide)).1 (by decide)
  · exact (string_literal_spec ⟨['"', 'h', '"'], [], 0, 1, 1, [], []⟩
      (by decide) (by decide)).2 (by decide)

/-- Claim C5: number recognition consumes a maximal digit run, then a dot and
a second maximal digit run only when a digit follows the dot; consequently
`123.` scans to a Number token for 123 followed by a separate Dot token, while
`123.456` scans to a single Number token of value 123.456. -/
theorem number_maximal_munch :
    (∀ s : Scanner, s.current ≤ s.source.length →
      ∃ s', number s = some s' ∧ s'.source = s.source ∧
        s'.current = s.current + (digitsAfter s.source s.current).length +
          (if dotCondB s.source (s.current + (digitsAfter s.source s.current).length) = true
           then 1 + (digitsAfter s.source
              (s.current + (digitsAfter s.source s.current).length + 1)).length
           else 0)) ∧
    scanTokensOf latin1CharPred ("123.".toList) = some
      [⟨TokenType.Number, "123".toList, some (Literal.Number 123)⟩,
       ⟨TokenType.Dot, ".".toList, none⟩, eofToken] ∧
    scanTokensOf latin1CharPred ("123.456".toList) = some
      [⟨TokenType.Number, "123.456".toList, some (Literal.Number (123.456 : ℚ))⟩,
       eofToken] := by
  have h456 : (123.456 : ℚ) = mkRat 123456 1000 := by
    show Rat.ofScientific 123456 true 3 = _
    rw [Rat.ofScientific_true_def]
    decide
  refine ⟨?_, by decide, by rw [h456]; decide⟩
  intro s h
  by_cases hdc : dotCondB s.source
      (s.current + (digitsAfter s.source s.current).length) = true
  · refine ⟨_, number_spec_dot s h hdc, ?_, ?_⟩
    · unfold numberResult
      cases hp : parseF64 (extract s.source s.start
          (s.current + (digitsAfter s.source s.current).length + 1 +
            (digitsAfter s.source
              (s.current + (digitsAfter s.source s.current).length + 1)).length)) <;>
        rfl
    · rw [if_pos hdc]
      unfold numberResult
      cases hp : parseF64 (extract s.source s.start
          (s.current + (digitsAfter s.source s.current).length + 1 +
            (digitsAfter s.source
              (s.current + (digitsAfter s.source s.current).length + 1)).length)) <;>
        simp only [] <;> omega
  · refine ⟨_, number_spec_nodot s h (by simpa using hdc), ?_, ?_⟩
    · unfold numberResult
      cases hp : parseF64 (extract s.source s.start
          (s.current + (digitsAfter s.source s.current).length)) <;> rfl
    · rw [if_neg hdc]
      unfold numberResult
      cases hp : parseF64 (extract s.source s.start
          (s.current + (digitsAfter s.source s.current).length)) <;>
        simp only [] <;> omega

/-- Claim C5 witness: the general consumption law applied to the state after
the leading digit of the input `1`. -/
theorem number_maximal_munch_witness :
    ∃ s', number (⟨['1'], [], 0, 1, 1, [], []⟩ : Scanner) = some s' ∧
      s'.source = ['1'] ∧ s'.current = 1 :=
  number_maximal_munch.1 (⟨['1'], [], 0, 1, 1, [], []⟩ : Scanner) (by decide)

/-- Claim C6: each of the sixteen reserved words, scanned alone, yields
exactly one token of its dedicated keyword kind with no literal payload (plus
the end-of-input token), and matching is exact-text and case-sensitive:
`And` yields a generic Identifier token. -/
theorem keywords_scan_exact :
    scanTokensOf latin1CharPred ("and".toList)
      = some [⟨TokenType.And, "and".toList, none⟩, eofToken] ∧
    scanTokensOf latin1CharPred ("class".toList)
      = some [⟨TokenType.Class, "class".toList, none⟩, eofToken] ∧
    scanTokensOf latin1CharPred ("else".toList)
      = some [⟨TokenType.Else, "else".toList, none⟩, eofToken] ∧
    scanTokensOf latin1CharPred ("false".toList)
      = some [⟨TokenType.False, "false".toList, none⟩, eofToken] ∧
    scanTokensOf latin1CharPred ("for".toList)
      = some [⟨TokenType.For, "for".toList, none⟩, eofToken] ∧
    scanTokensOf latin1CharPred ("fun".toList)
      = some [⟨TokenType.Fun, "fun".toList, none⟩, eofToken] ∧
    scanTokensOf latin1CharPred ("if".toList)
      = some [⟨TokenType.If, "if".toList, none⟩, eofToken] ∧
    scanTokensOf latin1CharPred ("nil".toList)
      = some [⟨TokenType.Nil, "nil".toList, none⟩, eofToken] ∧
    scanTokensOf latin1CharPred ("or".toList)
      = some [⟨TokenType.Or, "or".toList, none⟩, eofToken] ∧
    scanTokensOf latin1CharPred ("print".toList)
      = some [⟨TokenType.Print, "print".toList, none⟩, eofToken] ∧
    scanTokensOf latin1CharPred ("return".toList)
      = some [⟨TokenType.Return, "return".toList, none⟩, eofToken] ∧
    scanTokensOf latin1CharPred ("super".toList)
      = some [⟨TokenType.Super, "super".toList, none⟩, eofToken] ∧
    scanTokensOf latin1CharPred ("this".toList)
      = some [⟨TokenType.This, "this".toList, none⟩, eofToken] ∧
    scanTokensOf latin1CharPred ("true".toList)
      = some [⟨TokenType.True, "true".toList, none⟩, eofToken] ∧
    scanTokensOf latin1CharPred ("var".toList)
      = some [⟨TokenType.Var, "var".toList, none⟩, eofToken] ∧
    scanTokensOf latin1CharPred ("while".toList)
      = some [⟨TokenType.While, "while".toList, none⟩, eofToken] ∧
    scanTokensOf latin1CharPred ("And".toList)
      = some [⟨TokenType.Identifier, "And".toList, none⟩, eofToken] := by
  decide

/-- Claim C8: on reading `/`, a second `/` turns the rest of the line into a
comment — everything up to but excluding the next newline (or end of input) is
consumed and no token is emitted — and otherwise a single Slash token is
emitted; hence `// comment` + newline + `123` scans to exactly one Number
token (plus end-of-input), with the line counter advanced past the newline and
no error. -/
theorem slash_dispatch :
    (∀ (cc : CharPred) (s : Scanner), s.source[s.current]? = some '/' →
      ((s.source[s.current + 1]? = some '/' →
        scan_token cc s = some { s with current := s.current + 1 + 1 +
          ((s.source.drop (s.current + 1 + 1)).takeWhile nonNewline).length }) ∧
       (s.source[s.current + 1]? ≠ some '/' →
        scan_token cc s = some (add_token { s with current := s.current + 1 }
          TokenType.Slash none)))) ∧
    scanTokensOf latin1CharPred ("// comment\n123".toList) = some
      [⟨TokenType.Number, "123".toList, some (Literal.Number 123)⟩, eofToken] ∧
    (scan_tokens latin1CharPred (mkScanner ("// comment\n123".toList))).map Scanner.line_no
      = some 2 ∧
    scanErrorsOf latin1CharPred ("// comment\n123".toList) = some [] := by
  refine ⟨?_, by decide, by decide, by decide⟩
  intro cc s h
  have hadv : advance s = some ('/', { s with current := s.current + 1 }) := by
    unfold advance
    rw [h]
  have hred : scan_token cc s
      = match next_match { s with current := s.current + 1 } '/' with
        | (true, s2) => comment_loop (s2.source.length + 1) s2
        | (false, s2) => some (add_token s2 TokenType.Slash none) := by
    unfold scan_token
    rw [hadv]
    rfl
  constructor
  · intro he
    rw [hred, next_match_of_eq { s with current := s.current + 1 } '/' (by exact he)]
    dsimp only
    have hb : ((s.source.drop (s.current + 1 + 1)).takeWhile nonNewline).length
        ≤ s.source.length - (s.current + 1 + 1) :=
      takeWhile_drop_length_le s.source nonNewline (s.current + 1 + 1)
    rw [comment_loop_spec (s.source.length + 1) { s with current := s.current + 1 + 1 }
      (by dsimp only; omega)]
  · intro he
    rw [hred, next_match_of_ne { s with current := s.current + 1 } '/' (by exact he)]

/-- Claim C8 witness: the dispatch law applied to the concrete inputs `//x`
(comment: everything consumed, nothing emitted) and `/a` (Slash token). -/
theorem slash_dispatch_witness :
    scan_token latin1CharPred (mkScanner ['/', '/', 'x'])
      = some ⟨['/', '/', 'x'], [], 0, 3, 1, [], []⟩ ∧
    scan_token latin1CharPred (mkScanner ['/', 'a'])
      = some ⟨['/', 'a'], [⟨TokenType.Slash, ['/'], none⟩], 0, 1, 1, [], [(0, 1)]⟩ := by
  constructor
  · exact (slash_dispatch.1 latin1CharPred (mkScanner ['/', '/', 'x'])
      (by decide)).1 (by decide)
  · exact (slash_dispatch.1 latin1CharPred (mkScanner ['/', 'a'])
      (by decide)).2 (by decide)

/-- Claim C10: identifier recognition follows the Unicode classification, not
an ASCII-only one: the non-ASCII letter U+00E9 (é, alphabetic in Unicode and
in the Latin-1 table instantiating the Rust predicates) scans to one
Identifier token with no error, both alone and as a continuation character,
rather than producing an "Unexpected character." error. -/
theorem identifier_unicode_aware :
    scanTokensOf latin1CharPred [Char.ofNat 233]
      = some [⟨TokenType.Identifier, [Char.ofNat 233], none⟩, eofToken] ∧
    scanErrorsOf latin1CharPred [Char.ofNat 233] = some [] ∧
    scanTokensOf latin1CharPred ['x', Char.ofNat 233, '_', '1']
      = some [⟨TokenType.Identifier, ['x', Char.ofNat 233, '_', '1'], none⟩, eofToken] ∧
    latin1CharPred.isAlphabetic (Char.ofNat 233) = true ∧
    127 < (Char.ofNat 233).toNat := by
  decide

/-! Simulation machinery for the unexpected-character claim: prepending one
character to the source while shifting both cursors by one (`consShift`, with
an error-trace prefix `e`) commutes with every scanner operation, because the
scanner only ever reads the source at or after `current` and slices at or
after `start`. -/

def consShift (c : Char) (e : List (Nat × String)) (s : Scanner) : Scanner :=
  { source := c :: s.source,
    tokens := s.tokens,
    start := s.start + 1,
    current := s.current + 1,
    line_no := s.line_no,
    errors := e ++ s.errors,
    spans := s.spans.map (fun p => (p.1 + 1, p.2 + 1)) }

theorem is_at_end_consShift (c : Char) (e : List (Nat × String)) (s : Scanner) :
    is_at_end (consShift c e s) = is_at_end s := by
  simp [is_at_end, consShift]

theorem peek_consShift (c : Char) (e : List (Nat × String)) (s : Scanner) :
    peek (consShift c e s) = peek s := by
  rw [peek_eq_getD, peek_eq_getD]
  simp [consShift]

theorem peek_next_consShift (c : Char) (e : List (Nat × String)) (s : Scanner) :
    peek_next (consShift c e s) = peek_next s := by
  rw [peek_next_eq_getD, peek_next_eq_getD]
  simp [consShift]

theorem advance_consShift (c : Char) (e : List (Nat × String)) (s : Scanner) :
    advance (consShift c e s)
      = (advance s).map (fun p => (p.1, consShift c e p.2)) := by
  unfold advance
  simp only [consShift, List.getElem?_cons_succ]
  cases hx : s.source[s.current]? <;> rfl

theorem extract_consShift (c : Char) (src : List Char) (a b : Nat) :
    extract (c :: src) (a + 1) (b + 1) = extract src a b := by
  unfold extract
  rw [List.drop_succ_cons, Nat.succ_sub_succ]

theorem extract_consShift' (c : Char) (src : List Char) (a b a2 b2 : Nat)
    (ha : a2 = a + 1) (hb : b2 = b + 1) :
    extract (c :: src) a2 b2 = extract src a b := by
  subst ha
  subst hb
  exact extract_consShift c src a b

theorem add_token_consShift (c : Char) (e : List (Nat × String)) (s : Scanner)
    (t : TokenType) (lit : Option Literal) :
    add_token (consShift c e s) t lit = consShift c e (add_token s t lit) := by
  unfold add_token consShift
  simp [extract_consShift]

theorem report_error_consShift (c : Char) (e : List (Nat × String)) (s : Scanner)
    (msg : String) :
    report_error (consShift c e s) msg = consShift c e (report_error s msg) := by
  unfold report_error consShift
  simp

theorem next_match_consShift (c : Char) (e : List (Nat × String)) (s : Scanner) (x : Char) :
    next_match (consShift c e s) x
      = ((next_match s x).1, consShift c e (next_match s x).2) := by
  by_cases hx : s.source[s.current]? = some x
  · rw [next_match_of_eq s x hx,
      next_match_of_eq (consShift c e s) x
        (by simpa [consShift, List.getElem?_cons_succ] using hx)]
    rfl
  · rw [next_match_of_ne s x hx,
      next_match_of_ne (consShift c e s) x
        (by simpa [consShift, List.getElem?_cons_succ] using hx)]

theorem drop_consShift (c : Char) (e : List (Nat × String)) (s : Scanner) :
    (consShift c e s).source.drop (consShift c e s).current = s.source.drop s.current := by
  simp [consShift]

theorem string_fn_consShift (c : Char) (e : List (Nat × String)) (s : Scanner)
    (h : s.current ≤ s.source.length) :
    string_fn (consShift c e s) = (string_fn s).map (consShift c e) := by
  by_cases hq : '"' ∈ s.source.drop s.current
  · rw [string_fn_closed s hq,
      string_fn_closed (consShift c e s) (by rw [drop_consShift]; exact hq),
      drop_consShift, Option.map_some']
    refine congrArg some ?_
    rw [show (consShift c e s).current = s.current + 1 from rfl,
      show (consShift c e s).start = s.start + 1 from rfl,
      show (consShift c e s).source = c :: s.source from rfl,
      show (consShift c e s).line_no = s.line_no from rfl,
      show (consShift c e s).tokens = s.tokens from rfl,
      show (consShift c e s).errors = e ++ s.errors from rfl,
      show (consShift c e s).spans = s.spans.map (fun p => (p.1 + 1, p.2 + 1)) from rfl]
    rw [show s.current + 1 + ((s.source.drop s.current).takeWhile nonQuote).length + 1
        = (s.current + ((s.source.drop s.current).takeWhile nonQuote).length + 1) + 1
        from by omega,
      show s.current + 1 + ((s.source.drop s.current).takeWhile nonQuote).length
        = (s.current + ((s.source.drop s.current).takeWhile nonQuote).length) + 1
        from by omega]
    rw [extract_consShift' c s.source s.start
        (s.current + ((s.source.drop s.current).takeWhile nonQuote).length + 1)
        (s.start + 1)
        ((s.current + ((s.source.drop s.current).takeWhile nonQuote).length + 1) + 1)
        rfl rfl,
      extract_consShift' c s.source (s.start + 1)
        (s.current + ((s.source.drop s.current).takeWhile nonQuote).length)
        (s.start + 1 + 1)
        ((s.current + ((s.source.drop s.current).takeWhile nonQuote).length) + 1)
        rfl rfl]
    simp only [consShift, List.map_append, List.map_cons, List.map_nil]
  · rw [string_fn_unterminated s h hq,
      string_fn_unterminated (consShift c e s)
        (by simp [consShift]; omega)
        (by rw [drop_consShift]; exact hq),
      drop_consShift, Option.map_some']
    refine congrArg some ?_
    simp only [consShift, List.length_cons, List.append_assoc]

theorem numberResult_consShift (c : Char) (e : List (Nat × String)) (s : Scanner)
    (nc : Nat) :
    numberResult (consShift c e s) (nc + 1) = consShift c e (numberResult s nc) := by
  unfold numberResult
  rw [show (consShift c e s).source = c :: s.source from rfl,
    show (consShift c e s).start = s.start + 1 from rfl,
    extract_consShift' c s.source s.start nc (s.start + 1) (nc + 1) rfl rfl]
  cases hp : parseF64 (extract s.source s.start nc) <;>
    simp only [consShift, List.map_append, List.map_cons, List.map_nil, List.append_assoc]

theorem digitsAfter_consShift (c : Char) (src : List Char) (i : Nat) :
    digitsAfter (c :: src) (i + 1) = digitsAfter src i := by
  simp [digitsAfter, List.drop_succ_cons]

theorem dotCondB_consShift (c : Char) (src : List Char) (i : Nat) :
    dotCondB (c :: src) (i + 1) = dotCondB src i := by
  simp [dotCondB, List.getD_cons_succ]

theorem number_consShift (c : Char) (e : List (Nat × String)) (s : Scanner)
    (h : s.current ≤ s.source.length) :
    number (consShift c e s) = (number s).map (consShift c e) := by
  by_cases hdc : dotCondB s.source
      (s.current + (digitsAfter s.source s.current).length) = true
  · rw [number_spec_dot s h hdc,
      number_spec_dot (consShift c e s) (by simp [consShift]; omega)
        (by
          show dotCondB (c :: s.source)
            ((consShift c e s).current + (digitsAfter (c :: s.source)
              ((consShift c e s).current)).length) = true
          rw [show (consShift c e s).current = s.current + 1 from rfl,
            digitsAfter_consShift,
            show s.current + 1 + (digitsAfter s.source s.current).length
              = (s.current + (digitsAfter s.source s.current).length) + 1 from by omega,
            dotCondB_consShift]
          exact hdc)]
    rw [Option.map_some']
    rw [show (consShift c e s).current = s.current + 1 from rfl,
      show (consShift c e s).source = c :: s.source from rfl,
      digitsAfter_consShift]
    rw [show s.current + 1 + (digitsAfter s.source s.current).length + 1
        = (s.current + (digitsAfter s.source s.current).length + 1) + 1 from by omega,
      digitsAfter_consShift]
    rw [show s.current + (digitsAfter s.source s.current).length + 1 + 1 +
          (digitsAfter s.source
            (s.current + (digitsAfter s.source s.current).length + 1)).length
        = (s.current + (digitsAfter s.source s.current).length + 1 +
            (digitsAfter s.source
              (s.current + (digitsAfter s.source s.current).length + 1)).length) + 1
        from by omega]
    exact congrArg some (numberResult_consShift c e s _)
  · rw [number_spec_nodot s h (by simpa using hdc),
      number_spec_nodot (consShift c e s) (by simp [consShift]; omega)
        (by
          show dotCondB (c :: s.source)
            ((consShift c e s).current + (digitsAfter (c :: s.source)
              ((consShift c e s).current)).length) = false
          rw [show (consShift c e s).current = s.current + 1 from rfl,
            digitsAfter_consShift,
            show s.current + 1 + (digitsAfter s.source s.current).length
              = (s.current + (digitsAfter s.source s.current).length) + 1 from by omega,
            dotCondB_consShift]
          simpa using hdc)]
    rw [Option.map_some']
    rw [show (consShift c e s).current = s.current + 1 from rfl,
      show (consShift c e s).source = c :: s.source from rfl,
      digitsAfter_consShift]
    rw [show s.current + 1 + (digitsAfter s.source s.current).length
        = (s.current + (digitsAfter s.source s.current).length) + 1 from by omega]
    exact congrArg some (numberResult_consShift c e s _)

theorem identifier_consShift (cc : CharPred) (c : Char) (e : List (Nat × String))
    (s : Scanner) :
    identifier cc (consShift c e s) = (identifier cc s).map (consShift c e) := by
  have hb : ((s.source.drop s.current).takeWhile (identCont cc)).length
      ≤ s.source.length - s.current :=
    takeWhile_drop_length_le s.source (identCont cc) s.current
  unfold identifier
  rw [ident_loop_spec cc ((consShift c e s).source.length + 1) (consShift c e s)
      (by rw [drop_consShift]; simp [consShift]; omega),
    ident_loop_spec cc (s.source.length + 1) s (by omega)]
  dsimp only
  rw [drop_consShift]
  rw [show (consShift c e s).current + ((s.source.drop s.current).takeWhile
        (identCont cc)).length
      = (s.current + ((s.source.drop s.current).takeWhile (identCont cc)).length) + 1
      from by show s.current + 1 + _ = _ + 1; omega]
  rw [show ({ consShift c e s with
        current := (s.current + ((s.source.drop s.current).takeWhile
          (identCont cc)).length) + 1 } : Scanner)
      = consShift c e { s with
        current := s.current + ((s.source.drop s.current).takeWhile
          (identCont cc)).length } from rfl]
  rw [show (consShift c e s).source = c :: s.source from rfl,
    show (consShift c e s).start = s.start + 1 from rfl]
  rw [extract_consShift' c s.source s.start
      (s.current + ((s.source.drop s.current).takeWhile (identCont cc)).length)
      (s.start + 1)
      (s.current + ((s.source.drop s.current).takeWhile (identCont cc)).length + 1)
      rfl rfl]
  rw [add_token_consShift]
  rfl

theorem scan_token_consShift (cc : CharPred) (c : Char) (e : List (Nat × String))
    (s : Scanner) (h : s.current < s.source.length) :
    scan_token cc (consShift c e s) = (scan_token cc s).map (consShift c e) := by
  have hadv := advance_of_lt s h
  have hadvS : advance (consShift c e s)
      = some (s.source[s.current], consShift c e { s with current := s.current + 1 }) := by
    rw [advance_consShift, hadv]
    rfl
  unfold scan_token
  simp only [hadvS, hadv]
  by_cases h1 : s.source[s.current] = '('
  · rw [if_pos h1, if_pos h1, add_token_consShift]; rfl
  rw [if_neg h1, if_neg h1]
  by_cases h2 : s.source[s.current] = ')'
  · rw [if_pos h2, if_pos h2, add_token_consShift]; rfl
  rw [if_neg h2, if_neg h2]
  by_cases h3 : s.source[s.current] = leftBraceChar
  · rw [if_pos h3, if_pos h3, add_token_consShift]; rfl
  rw [if_neg h3, if_neg h3]
  by_cases h4 : s.source[s.current] = rightBraceChar
  · rw [if_pos h4, if_pos h4, add_token_consShift]; rfl
  rw [if_neg h4, if_neg h4]
  by_cases h5 : s.source[s.current] = ','
  · rw [if_pos h5, if_pos h5, add_token_consShift]; rfl
  rw [if_neg h5, if_neg h5]
  by_cases h6 : s.source[s.current] = '.'
  · rw [if_pos h6, if_pos h6, add_token_consShift]; rfl
  rw [if_neg h6, if_neg h6]
  by_cases h7 : s.source[s.current] = '-'
  · rw [if_pos h7, if_pos h7, add_token_consShift]; rfl
  rw [if_neg h7, if_neg h7]
  by_cases h8 : s.source[s.current] = '+'
  · rw [if_pos h8, if_pos h8, add_token_consShift]; rfl
  rw [if_neg h8, if_neg h8]
  by_cases h9 : s.source[s.current] = ';'
  · rw [if_pos h9, if_pos h9, add_token_consShift]; rfl
  rw [if_neg h9, if_neg h9]
  by_cases h10 : s.source[s.current] = '*'
  · rw [if_pos h10, if_pos h10, add_token_consShift]; rfl
  rw [if_neg h10, if_neg h10]
  by_cases h11 : s.source[s.current] = '!'
  · rw [if_pos h11, if_pos h11, next_match_consShift]
    cases hnm : next_match { s with current := s.current + 1 } '=' with
    | mk b s2 =>
      dsimp only
      rw [add_token_consShift]
      rfl
  rw [if_neg h11, if_neg h11]
  by_cases h12 : s.source[s.current] = '='
  · rw [if_pos h12, if_pos h12, next_match_consShift]
    cases hnm : next_match { s with current := s.current + 1 } '=' with
    | mk b s2 =>
      dsimp only
      rw [add_token_consShift]
      rfl
  rw [if_neg h12, if_neg h12]
  by_cases h13 : s.source[s.current] = '<'
  · rw [if_pos h13, if_pos h13, next_match_consShift]
    cases hnm : next_match { s with current := s.current + 1 } '=' with
    | mk b s2 =>
      dsimp only
      rw [add_token_consShift]
      rfl
  rw [if_neg h13, if_neg h13]
  by_cases h14 : s.source[s.current] = '>'
  · rw [if_pos h14, if_pos h14, next_match_consShift]
    cases hnm : next_match { s with current := s.current + 1 } '=' with
    | mk b s2 =>
      dsimp only
      rw [add_token_consShift]
      rfl
  rw [if_neg h14, if_neg h14]
  by_cases h15 : s.source[s.current] = '/'
  · rw [if_pos h15, if_pos h15, next_match_consShift]
    cases hnm : next_match { s with current := s.current + 1 } '/' with
    | mk b s2 =>
      cases b with
      | true =>
        dsimp only
        have hK := takeWhile_drop_length_le s2.source nonNewline s2.current
        rw [comment_loop_spec ((consShift c e s2).source.length + 1) (consShift c e s2)
            (by rw [drop_consShift]; simp only [consShift, List.length_cons]; omega),
          comment_loop_spec (s2.source.length + 1) s2 (by omega),
          Option.map_some', drop_consShift]
        rw [show (consShift c e s2).current = s2.current + 1 from rfl]
        rw [show s2.current + 1 + ((s2.source.drop s2.current).takeWhile nonNewline).length
            = (s2.current + ((s2.source.drop s2.current).takeWhile nonNewline).length) + 1
            from by omega]
        rfl
      | false =>
        dsimp only
        rw [add_token_consShift]
        rfl
  rw [if_neg h15, if_neg h15]
  by_cases h16 : s.source[s.current] = '"'
  · rw [if_pos h16, if_pos h16]
    exact string_fn_consShift c e { s with current := s.current + 1 }
      (by show s.current + 1 ≤ s.source.length; omega)
  rw [if_neg h16, if_neg h16]
  by_cases h17 : s.source[s.current] = ' ' ∨ s.source[s.current] = '\r'
      ∨ s.source[s.current] = '\t'
  · rw [if_pos h17, if_pos h17]
    rfl
  rw [if_neg h17, if_neg h17]
  by_cases h18 : s.source[s.current] = '\n'
  · rw [if_pos h18, if_pos h18]
    rfl
  rw [if_neg h18, if_neg h18]
  by_cases h19 : (s.source[s.current]).isDigit = true
  · rw [if_pos h19, if_pos h19]
    exact number_consShift c e { s with current := s.current + 1 }
      (by show s.current + 1 ≤ s.source.length; omega)
  rw [if_neg h19, if_neg h19]
  by_cases h20 : cc.isAlphabetic s.source[s.current] = true ∨ s.source[s.current] = '_'
  · rw [if_pos h20, if_pos h20]
    exact identifier_consShift cc c e { s with current := s.current + 1 }
  rw [if_neg h20, if_neg h20]
  rw [report_error_consShift]
  rfl

theorem scan_tokens_loop_consShift (cc : CharPred) (c : Char) (e : List (Nat × String)) :
    ∀ (fuel : Nat) (s : Scanner),
    scan_tokens_loop cc fuel (consShift c e s)
      = (scan_tokens_loop cc fuel s).map (consShift c e) := by
  intro fuel
  induction fuel with
  | zero => intro s; rfl
  | succ fuel ih =>
    intro s
    by_cases hend : is_at_end s = true
    · rw [scan_tokens_loop, scan_tokens_loop,
        if_neg (show ¬ ¬ is_at_end (consShift c e s) = true by
          rw [is_at_end_consShift]; simp [hend]),
        if_neg (by simp [hend])]
      rfl
    · have hlt : s.current < s.source.length := by
        simp only [is_at_end, decide_eq_true_eq] at hend
        omega
      rw [scan_tokens_loop, scan_tokens_loop,
        if_pos (show ¬ is_at_end (consShift c e s) = true by
          rw [is_at_end_consShift]; exact hend),
        if_pos hend]
      rw [show ({ consShift c e s with start := (consShift c e s).current } : Scanner)
          = consShift c e { s with start := s.current } from rfl]
      rw [scan_token_consShift cc c e { s with start := s.current } (by exact hlt)]
      cases hst : scan_token cc { s with start := s.current } with
      | none => rfl
      | some s1 =>
        dsimp only [Option.map_some']
        exact ih s1

theorem scan_tokens_loop_start_irrel (cc : CharPred) (fuel : Nat) (s : Scanner) (k : Nat) :
    (scan_tokens_loop cc fuel { s with start := k }).map (fun t => (t.tokens, t.errors))
      = (scan_tokens_loop cc fuel s).map (fun t => (t.tokens, t.errors)) := by
  cases fuel with
  | zero => rfl
  | succ fuel =>
    by_cases hend : is_at_end s = true
    · rw [scan_tokens_loop, scan_tokens_loop,
        if_neg (show ¬ ¬ is_at_end { s with start := k } = true from
          show ¬ ¬ is_at_end s = true by simp [hend]),
        if_neg (by simp [hend])]
      rfl
    · rw [scan_tokens_loop, scan_tokens_loop,
        if_pos (show ¬ is_at_end { s with start := k } = true from
          show ¬ is_at_end s = true from hend),
        if_pos hend]

theorem scan_tokens_eq_map (cc : CharPred) (s : Scanner) :
    scan_tokens cc s = (scan_tokens_loop cc (s.source.length + 1) s).map
      (fun t => { t with tokens := t.tokens ++ [eofToken] }) := by
  unfold scan_tokens
  cases hl : scan_tokens_loop cc (s.source.length + 1) s <;> rfl

/-- Claim C3, counterexample to the claim as stated: in `a@b` the `@` is
skipped with one error, but deleting it merges the two identifiers, so the
token sequence of `a@b` (two Identifier tokens) differs from that of `ab`
(one Identifier token). -/
theorem unexpected_char_deletion_counterexample :
    scanTokensOf latin1CharPred ['a', '@', 'b']
      = some [⟨TokenType.Identifier, ['a'], none⟩,
              ⟨TokenType.Identifier, ['b'], none⟩, eofToken] ∧
    scanErrorsOf latin1CharPred ['a', '@', 'b'] = some [(1, unexpectedCharacterMsg)] ∧
    scanTokensOf latin1CharPred ['a', 'b']
      = some [⟨TokenType.Identifier, ['a', 'b'], none⟩, eofToken] ∧
    (some [⟨TokenType.Identifier, ['a'], none⟩,
           ⟨TokenType.Identifier, ['b'], none⟩, eofToken]
      ≠ (some [⟨TokenType.Identifier, ['a', 'b'], none⟩, eofToken]
          : Option (List Token))) := by
  decide

/-- Claim C3 (amended): an unexpected character such as `@` triggers exactly
one "Unexpected character." error at its line, no token is emitted for it and
scanning continues with the next character; for a leading `@` the resulting
token sequence equals that of the input with the `@` deleted, and exactly one
error, at line 1, is prepended to the deleted input's error trace.  (Deleting
a `@` from the middle of the input can merge the two adjacent lexemes, so the
deletion equality cannot hold at every position.) -/
theorem unexpected_char_prefix_skipped (src : List Char) :
    scanTokensOf latin1CharPred ('@' :: src) = scanTokensOf latin1CharPred src ∧
    scanErrorsOf latin1CharPred ('@' :: src)
      = (scanErrorsOf latin1CharPred src).map
          (fun errs => (1, unexpectedCharacterMsg) :: errs) := by
  have hfirst : scan_token latin1CharPred (⟨'@' :: src, [], 0, 0, 1, [], []⟩ : Scanner)
      = some (⟨'@' :: src, [], 0, 1, 1, [(1, unexpectedCharacterMsg)], []⟩ : Scanner) := by
    have hadv := advance_of_lt (⟨'@' :: src, [], 0, 0, 1, [], []⟩ : Scanner) (by simp)
    dsimp only at hadv
    simp only [List.getElem_cons_zero] at hadv
    unfold scan_token
    rw [hadv]
    rfl
  have hstep : scan_tokens_loop latin1CharPred (src.length + 1 + 1) (mkScanner ('@' :: src))
      = scan_tokens_loop latin1CharPred (src.length + 1)
          (⟨'@' :: src, [], 0, 1, 1, [(1, unexpectedCharacterMsg)], []⟩ : Scanner) := by
    rw [scan_tokens_loop,
      if_pos (show ¬ is_at_end (mkScanner ('@' :: src)) = true by
        simp [is_at_end, mkScanner])]
    rw [show ({ mkScanner ('@' :: src) with start := (mkScanner ('@' :: src)).current }
          : Scanner)
        = (⟨'@' :: src, [], 0, 0, 1, [], []⟩ : Scanner) from rfl]
    rw [hfirst]
  have hS1 : (⟨'@' :: src, [], 0, 1, 1, [(1, unexpectedCharacterMsg)], []⟩ : Scanner)
      = { consShift '@' [(1, unexpectedCharacterMsg)] (mkScanner src)
          with start := 0 } := rfl
  have key : (scan_tokens_loop latin1CharPred (src.length + 1)
        (⟨'@' :: src, [], 0, 1, 1, [(1, unexpectedCharacterMsg)], []⟩ : Scanner)).map
          (fun t => (t.tokens, t.errors))
      = ((scan_tokens_loop latin1CharPred (src.length + 1) (mkScanner src)).map
          (consShift '@' [(1, unexpectedCharacterMsg)])).map
            (fun t => (t.tokens, t.errors)) := by
    rw [hS1,
      scan_tokens_loop_start_irrel latin1CharPred (src.length + 1)
        (consShift '@' [(1, unexpectedCharacterMsg)] (mkScanner src)) 0,
      scan_tokens_loop_consShift latin1CharPred '@' [(1, unexpectedCharacterMsg)]
        (src.length + 1) (mkScanner src)]
  unfold scanTokensOf scanErrorsOf
  rw [scan_tokens_eq_map latin1CharPred (mkScanner ('@' :: src)),
    scan_tokens_eq_map latin1CharPred (mkScanner src)]
  rw [show (mkScanner ('@' :: src)).source.length + 1 = src.length + 1 + 1 from rfl,
    show (mkScanner src).source.length + 1 = src.length + 1 from rfl,
    hstep]
  constructor
  · have key_tokens := congrArg
      (Option.map (fun p : List Token × List (Nat × String) => p.1 ++ [eofToken])) key
    simp only [Option.map_map] at key_tokens ⊢
    simpa [Function.comp, consShift] using key_tokens
  · have key_errors := congrArg
      (Option.map (fun p : List Token × List (Nat × String) => p.2)) key
    simp only [Option.map_map] at key_errors ⊢
    simpa [Function.comp, consShift] using key_errors

/-- Claim C3 witness: the amended theorem applied to the concrete suffix
`1 + 2`, where the tokens after the leading `@` are unaffected and one error
at line 1 is recorded. -/
theorem unexpected_char_prefix_skipped_witness :
    scanTokensOf latin1CharPred ('@' :: "1 + 2".toList)
      = scanTokensOf latin1CharPred ("1 + 2".toList) ∧
    scanErrorsOf latin1CharPred ('@' :: "1 + 2".toList)
      = (scanErrorsOf latin1CharPred ("1 + 2".toList)).map
          (fun errs => (1, unexpectedCharacterMsg) :: errs) :=
  unexpected_char_prefix_skipped ("1 + 2".toList)

end Rlox
